import Mathlib

/-!
AlienDie firmware (`firmware/main.c`): display refresh, frame timer, buttons, codec, PRNG.

A shallow embedding of the C globals and functions of `main.c`.

* `uint8_t` / `uint16_t` values are natural numbers; every store that can exceed the
  width is reduced `% 256` / `% 65536` explicitly.  `int` is the 16-bit AVR `int`,
  so `~x` on a promoted operand is `65535 - x`.
* `uint8_t a[3]` arrays (`reds`, `greens`, `new_buttons`, ...) are the record `Rows`.
* `uint8_t a[MESSAGE_MAX]` arrays are functions from the index to the stored byte.
* The value read from the input register `PINB` is an argument of the interrupt handler.
-/

namespace AlienDie

/-- A `uint8_t x[3]` array: one byte per physical scan row. -/
structure Rows where
  r0 : Nat
  r1 : Nat
  r2 : Nat
  deriving DecidableEq, Repr

/-- Array read `x[i]` for `i` in `0..2`. -/
def Rows.get (a : Rows) (i : Nat) : Nat :=
  match i with
  | 0 => a.r0
  | 1 => a.r1
  | _ => a.r2

/-- Array write `x[i] = v` for `i` in `0..2`. -/
def Rows.set (a : Rows) (i : Nat) (v : Nat) : Rows :=
  match i with
  | 0 => { a with r0 := v }
  | 1 => { a with r1 := v }
  | _ => { a with r2 := v }

/-- The globals shared between the timer interrupt and the foreground code, together
with the three output port registers. -/
structure Dev where
  refresh_stage : Nat
  refresh_row : Nat
  reds : Rows
  greens : Rows
  new_buttons : Rows
  frames_count : Nat
  PORTA : Nat
  PORTB : Nat
  PORTD : Nat
  deriving DecidableEq, Repr

/-- Label `red_wrap:` of the handler: `PORTD = (refresh_row >> 1) | 0xfd; break;`. -/
def red_wrap (st : Dev) : Dev :=
  { st with PORTD := ((st.refresh_row >>> 1) ||| 0xfd) % 256 }

/-- Label `green_wrap:` of the handler: `PORTD = (refresh_row >> 2) | 0xfe; break;`. -/
def green_wrap (st : Dev) : Dev :=
  { st with PORTD := ((st.refresh_row >>> 2) ||| 0xfe) % 256 }

/-- Body of `case 1:` up to `red_wrap`, also reached by fall-through from `case 19:`. -/
def case1 (st : Dev) (pinb : Nat) : Dev :=
  let st := { st with PORTB := 0xfb }
  let st := { st with refresh_row := st.reds.r0 }
  let st := { st with new_buttons := { st.new_buttons with r0 := (pinb % 256) >>> 3 } }
  let st := { st with PORTB := 0x04 }
  red_wrap st

/-- `ISR(TIMER1_COMPA_vect)`: one timer tick.  `pinb` is the value the handler reads
from `PINB` during this tick (only read in stages 1, 4 and 7). -/
def ISR (st : Dev) (pinb : Nat) : Dev :=
  let st := { st with refresh_stage := (st.refresh_stage + 1) % 256 }
  match st.refresh_stage with
  | 19 =>
    let st := { st with refresh_stage := 1 }
    let st := { st with frames_count := (st.frames_count + 255) % 256 }
    case1 st pinb
  | 1 => case1 st pinb
  | 2 | 5 | 8 =>
    let st := { st with PORTD := 0xf }
    { st with PORTA := ((st.refresh_row >>> 1) ||| 0xfe) % 256 }
  | 3 | 6 | 9 =>
    let st := { st with PORTA := 3 }
    { st with PORTD := ((st.refresh_row <<< 3) ||| 0xf7) % 256 }
  | 4 =>
    let st := { st with PORTB := 0xfd }
    let st := { st with refresh_row := st.reds.r1 }
    let st := { st with new_buttons := { st.new_buttons with r1 := (pinb % 256) >>> 3 } }
    let st := { st with PORTB := 0x02 }
    red_wrap st
  | 7 =>
    let st := { st with PORTB := 0xbf }
    let st := { st with refresh_row := st.reds.r2 }
    let st := { st with new_buttons := { st.new_buttons with r2 := (pinb % 256) >>> 3 } }
    let st := { st with PORTB := 0x40 }
    red_wrap st
  | 10 =>
    let st := { st with PORTB := 0x04 }
    let st := { st with refresh_row := st.greens.r0 }
    green_wrap st
  | 11 | 14 | 17 =>
    let st := { st with PORTD := 0xf }
    { st with PORTA := (st.refresh_row ||| 0xfd) % 256 }
  | 12 | 15 | 18 =>
    let st := { st with PORTA := 3 }
    { st with PORTD := ((st.refresh_row <<< 2) ||| 0xfb) % 256 }
  | 13 =>
    let st := { st with PORTB := 0x02 }
    let st := { st with refresh_row := st.greens.r1 }
    green_wrap st
  | 16 =>
    let st := { st with PORTB := 0x40 }
    let st := { st with refresh_row := st.greens.r2 }
    green_wrap st
  | _ => st

/-- The state after the first `k` timer ticks, tick `i` (counted from 0) reading
`inp i` from `PINB`. -/
def runTicks (st : Dev) (inp : Nat → Nat) : Nat → Dev
  | 0 => st
  | k + 1 => ISR (runTicks st inp k) (inp k)

/-- Whether the tick taken from `st` is the frame wrap, i.e. hits `case 19:`. -/
def isWrap (st : Dev) : Bool :=
  (st.refresh_stage + 1) % 256 == 19

/-- Number of frame wraps (`case 19:` executions) among the first `k` ticks. -/
def wrapCount (st : Dev) (inp : Nat → Nat) : Nat → Nat
  | 0 => 0
  | k + 1 => wrapCount st inp k + (if isWrap (runTicks st inp k) then 1 else 0)

/-- The stage the switch dispatches on, as a function of the stage before the tick. -/
def nextStage (s : Nat) : Nat :=
  if (s + 1) % 256 = 19 then 1 else (s + 1) % 256

/-- The state at power-on: all globals are zero-initialised; `main` sets
`PORTA = 3`, `PORTD = 0xf` before enabling the timer. -/
def powerOn : Dev :=
  { refresh_stage := 0, refresh_row := 0,
    reds := ⟨0, 0, 0⟩, greens := ⟨0, 0, 0⟩, new_buttons := ⟨0, 0, 0⟩,
    frames_count := 0, PORTA := 3, PORTB := 0, PORTD := 0xf }

/-- The loop `do { sleep } while (frames_count);` of `sleep`.  Each `sleep` instruction
halts the CPU until the next timer interrupt, so one iteration is one call of the
handler; `t` counts the ticks already consumed and `fuel` bounds the iterations.
The result is the state on return together with the number of ticks consumed. -/
def sleepLoop : Nat → Dev → (Nat → Nat) → Nat → Option (Dev × Nat)
  | 0, _, _, _ => none
  | fuel + 1, st, inp, t =>
    let st1 := ISR st (inp t)
    if st1.frames_count = 0 then some (st1, t + 1) else sleepLoop fuel st1 inp (t + 1)

/-- `void sleep(uint8_t frames)`: `frames_count = frames;` followed by the wait loop. -/
def sleep (fuel : Nat) (st : Dev) (frames : Nat) (inp : Nat → Nat) : Option (Dev × Nat) :=
  sleepLoop fuel { st with frames_count := frames % 256 } inp 0

/-- `uint8_t read_btn_row(volatile uint8_t* cur, uint8_t* prev)`: the arguments are the
bytes pointed to; the result is the returned byte and the byte left in `*prev`.
`~t` is taken on the promoted 16-bit `int`. -/
def read_btn_row (cur prev : Nat) : Nat × Nat :=
  let t := cur &&& 7
  let r := ((65535 - t) &&& prev) % 256
  (r, t)

/-- `uint8_t rand(void)`: the argument is `random_seed` before the call, the result
is the returned byte and `random_seed` after the call. -/
def rand (random_seed : Nat) : Nat × Nat :=
  let random_seed := (((random_seed <<< 2) % 65536 + random_seed) % 65536 + 12345) % 65536
  ((random_seed >>> 5) % 256, random_seed)

/-- `void fill_frame(volatile uint8_t* dst, uint8_t v, uint8_t tail)`: the three bytes
written to `dst`. -/
def fill_frame (v tail : Nat) : Rows :=
  let v := v % 256
  let tail := tail % 256
  { r0 := v, r1 := v >>> 3, r2 := ((v >>> 5) &&& 6) ||| (tail &&& 1) }

/-- `uint8_t pack_frame(volatile uint8_t* data)`. -/
def pack_frame (data : Rows) : Nat :=
  ((data.r0 &&& 7) ||| ((data.r1 &&& 7) <<< 3) ||| ((data.r2 &&& 6) <<< 5)) % 256

/-- `MESSAGE_MAX`. -/
def MESSAGE_MAX : Nat := 20

/-- The stored animation: `message_size`, `message_reds[MESSAGE_MAX]`,
`message_greens[MESSAGE_MAX]` and `message_tails[(MESSAGE_MAX + 3) / 4]`. -/
structure Msg where
  message_size : Nat
  message_reds : Nat → Nat
  message_greens : Nat → Nat
  message_tails : Nat → Nat

/-- Array write `a[i] = v` on an index-to-byte map. -/
def setAt (a : Nat → Nat) (i v : Nat) : Nat → Nat :=
  fun k => if k = i then v else a k

/-- `void load_frame(uint8_t i)`: writes `reds` and `greens` from the stored frame. -/
def load_frame (m : Msg) (st : Dev) (i : Nat) : Dev :=
  let tail := (m.message_tails (i >>> 2) >>> ((i &&& 3) <<< 1)) % 256
  let st := { st with reds := fill_frame (m.message_reds i) tail }
  { st with greens := fill_frame (m.message_greens i) (tail >>> 1) }

/-- The store of the editor branch of `main` (the four statements that write
`message_reds[frame]`, `message_greens[frame]` and `message_tails[frame >> 2]`). -/
def editor_store (m : Msg) (reds greens : Rows) (frame : Nat) : Msg :=
  let m := { m with message_reds := setAt m.message_reds frame (pack_frame reds) }
  let m := { m with message_greens := setAt m.message_greens frame (pack_frame greens) }
  let shift := ((frame &&& 3) <<< 1) % 256
  let tails := ((m.message_tails (frame >>> 2) &&& (65535 - (3 <<< shift))) |||
    (((reds.r2 &&& 1) ||| ((greens.r2 &&& 1) <<< 1)) <<< shift)) % 256
  { m with message_tails := setAt m.message_tails (frame >>> 2) tails }

/-- Frame `i` of the store holds the bitmaps `R`, `G`: the packed bytes are theirs and
the two tail bits of the frame are bit 0 of their row 2. -/
def frameStored (m : Msg) (i : Nat) (R G : Rows) : Prop :=
  m.message_reds i = pack_frame R ∧ m.message_greens i = pack_frame G ∧
  (m.message_tails (i >>> 2)).testBit ((i &&& 3) <<< 1) = R.r2.testBit 0 ∧
  (m.message_tails (i >>> 2)).testBit ((i &&& 3) <<< 1 + 1) = G.r2.testBit 0

/-- Two bitmaps agree on the three low bits of every row. -/
def sameLow (a b : Rows) : Prop :=
  a.r0 &&& 7 = b.r0 &&& 7 ∧ a.r1 &&& 7 = b.r1 &&& 7 ∧ a.r2 &&& 7 = b.r2 &&& 7

/-- A store with unspecified prior contents, used as an example. -/
def someMsg : Msg :=
  { message_size := 3, message_reds := fun k => (k * 29 + 5) % 256,
    message_greens := fun k => (k * 53 + 7) % 256,
    message_tails := fun k => (k * 101 + 170) % 256 }

/-- A state in the middle of a frame, with the bitmaps of the end-to-end scenario
(red rows `0b110, 0b101, 0b011`, green rows all `0b111`). -/
def midFrame : Dev :=
  { powerOn with refresh_stage := 7, frames_count := 3,
                 reds := ⟨6, 5, 3⟩, greens := ⟨7, 7, 7⟩ }

/-- A state just before the frame wrap: the next tick hits `case 19:`. -/
def lastStage : Dev :=
  { midFrame with refresh_stage := 18 }

/-- An input stream: the byte read from `PINB` at tick `t`. -/
def pins (t : Nat) : Nat := (t * 37 + 11) % 256

/-- The `PORTB` row-select value of physical row `k`. -/
def rowSelect (k : Nat) : Nat :=
  match k with
  | 0 => 0x04
  | 1 => 0x02
  | _ => 0x40

/-- The foreground globals of the button and power code: the interrupt-shared state,
`prev_buttons`, `buttons`, `random_seed`, and the timer / sleep / pin-change
registers written on the power-down path. -/
structure Fg where
  dev : Dev
  prev_buttons : Rows
  buttons : Rows
  random_seed : Nat
  TCCR1B : Nat
  MCUCR : Nat
  GIMSK : Nat
  PCMSK : Nat
  deriving DecidableEq, Repr

/-- `uint8_t peek_buttons()`: the returned byte and the globals afterwards. -/
def peek_buttons (s : Fg) : Nat × Fg :=
  let a := read_btn_row s.dev.new_buttons.r0 s.prev_buttons.r0
  let b := read_btn_row s.dev.new_buttons.r1 s.prev_buttons.r1
  let c := read_btn_row s.dev.new_buttons.r2 s.prev_buttons.r2
  (a.1 ||| b.1 ||| c.1,
   { s with buttons := ⟨a.1, b.1, c.1⟩, prev_buttons := ⟨a.2, b.2, c.2⟩ })

/-- The interrupt handler writing the raw samples `nb` into `new_buttons`. -/
def setNew (s : Fg) (nb : Rows) : Fg :=
  { s with dev := { s.dev with new_buttons := nb } }

/-- A sequence of polls, the `i`-th one finding the raw samples `samples[i]` in
`new_buttons`. -/
def pollSeq (s : Fg) (samples : List Rows) : Fg :=
  samples.foldl (fun s nb => (peek_buttons (setNew s nb)).2) s

/-- The foreground state when `main` has finished its initialisation: globals zero,
`TCCR1B = 0x0B`, `MCUCR = 0x20`, `GIMSK = 0`, `PCMSK = 0`. -/
def boot : Fg :=
  { dev := powerOn, prev_buttons := ⟨0, 0, 0⟩, buttons := ⟨0, 0, 0⟩, random_seed := 0,
    TCCR1B := 0x0B, MCUCR := 0x20, GIMSK := 0, PCMSK := 0 }

/-- The statements of `read_buttons` between `cli()` and `sei()` on the timeout path. -/
def power_down (s : Fg) : Fg :=
  let s := { s with TCCR1B := 0 }
  let s := { s with MCUCR := 0x30 }
  let s := { s with dev := { s.dev with PORTD := 0 } }
  let s := { s with dev := { s.dev with PORTA := 0 } }
  let s := { s with dev := { s.dev with PORTB := 0x38 } }
  let s := { s with GIMSK := 0x20 }
  { s with PCMSK := 0x38 }

/-- How the `do ... while (0 == peek_buttons())` loop of `read_buttons` ends: a poll
reported an edge (globals, remaining `counter`, ticks consumed), or the power-down
sleep was entered (globals, ticks consumed), from which the pin-change handler
re-enters `main` instead of returning. -/
inductive LoopEnd where
  | pressed (s : Fg) (counter : Nat) (ticks : Nat)
  | poweredDown (s : Fg) (ticks : Nat)
  deriving DecidableEq, Repr

/-- The loop of `read_buttons`: one iteration is one timer tick (the `sleep`
instruction), the decrement of the 16-bit `counter`, the power-down path when it
reaches zero, and otherwise one poll. -/
def read_buttons_loop : Nat → Fg → (Nat → Nat) → Nat → Nat → Option LoopEnd
  | 0, _, _, _, _ => none
  | fuel + 1, s, inp, t, counter =>
    let s := { s with dev := ISR s.dev (inp t) }
    let counter := (counter + 65535) % 65536
    if counter = 0 then some (LoopEnd.poweredDown (power_down s) (t + 1))
    else
      let r := peek_buttons s
      if r.1 = 0 then read_buttons_loop fuel r.2 inp (t + 1) counter
      else some (LoopEnd.pressed r.2 counter (t + 1))

/-- How a call of `read_buttons` ends: it returns (globals, ticks consumed), or the
device powered down after `ticks` ticks and restarts `main` on wake. -/
inductive Outcome where
  | returned (s : Fg) (ticks : Nat)
  | restarted (s : Fg) (ticks : Nat)
  deriving DecidableEq, Repr

/-- `void read_buttons(void)`: the loop from `counter = 15000`, then
`random_seed += counter; sleep(2);`. -/
def read_buttons (fuel : Nat) (s : Fg) (inp : Nat → Nat) : Option Outcome :=
  match read_buttons_loop fuel s inp 0 15000 with
  | none => none
  | some (LoopEnd.poweredDown s t) => some (Outcome.restarted s t)
  | some (LoopEnd.pressed s counter t) =>
    let s := { s with random_seed := (s.random_seed + counter) % 65536 }
    match sleep fuel s.dev 2 (fun i => inp (t + i)) with
    | none => none
    | some (d, n) => some (Outcome.returned { s with dev := d } (t + n))

/-- The globals after `j` iterations of the loop of `read_buttons` none of which left
the loop: `j` ticks, each followed by a poll. -/
def idleIter (s : Fg) (inp : Nat → Nat) : Nat → Fg
  | 0 => s
  | j + 1 => (peek_buttons { idleIter s inp j with dev := ISR (idleIter s inp j).dev (inp j) }).2

/-- The value returned by the poll of iteration `j + 1` of the loop. -/
def pollAt (s : Fg) (inp : Nat → Nat) (j : Nat) : Nat :=
  (peek_buttons { idleIter s inp j with dev := ISR (idleIter s inp j).dev (inp j) }).1

/-- A foreground state with no button held at the previous poll, mid-frame. -/
def idleFg : Fg :=
  { boot with dev := { midFrame with new_buttons := ⟨7, 7, 7⟩ },
              prev_buttons := ⟨7, 7, 7⟩, random_seed := 40000 }

/-- An input stream with no button pressed: `PINB` bits 3..5 read 1. -/
def noPress (_t : Nat) : Nat := 0x38

/-- The poll that follows a sequence of polls: `peek_buttons` called with the raw
samples `cur` in `new_buttons`, after the polls of `samples`. -/
def pollAfter (s : Fg) (samples : List Rows) (cur : Rows) : Nat × Fg :=
  peek_buttons (setNew (pollSeq s samples) cur)

/-- Bit `i` of `x` as a number, 0 or 1. -/
def bitAt (x i : Nat) : Nat := (x >>> i) &&& 1

/-- The three output ports written by the timer handler. -/
inductive Port where
  | A
  | B
  | D
  deriving DecidableEq, Repr

/-- The port writes of one call of `ISR(TIMER1_COMPA_vect)` from state `st`, in program
order, each with the byte written. -/
def portWrites (st : Dev) : List (Port × Nat) :=
  match (st.refresh_stage + 1) % 256 with
  | 19 | 1 =>
    [(Port.B, 0xfb), (Port.B, 0x04), (Port.D, ((st.reds.r0 >>> 1) ||| 0xfd) % 256)]
  | 2 | 5 | 8 =>
    [(Port.D, 0xf), (Port.A, ((st.refresh_row >>> 1) ||| 0xfe) % 256)]
  | 3 | 6 | 9 =>
    [(Port.A, 3), (Port.D, ((st.refresh_row <<< 3) ||| 0xf7) % 256)]
  | 4 =>
    [(Port.B, 0xfd), (Port.B, 0x02), (Port.D, ((st.reds.r1 >>> 1) ||| 0xfd) % 256)]
  | 7 =>
    [(Port.B, 0xbf), (Port.B, 0x40), (Port.D, ((st.reds.r2 >>> 1) ||| 0xfd) % 256)]
  | 10 =>
    [(Port.B, 0x04), (Port.D, ((st.greens.r0 >>> 2) ||| 0xfe) % 256)]
  | 11 | 14 | 17 =>
    [(Port.D, 0xf), (Port.A, (st.refresh_row ||| 0xfd) % 256)]
  | 12 | 15 | 18 =>
    [(Port.A, 3), (Port.D, ((st.refresh_row <<< 2) ||| 0xfb) % 256)]
  | 13 =>
    [(Port.B, 0x02), (Port.D, ((st.greens.r1 >>> 2) ||| 0xfe) % 256)]
  | 16 =>
    [(Port.B, 0x40), (Port.D, ((st.greens.r2 >>> 2) ||| 0xfe) % 256)]
  | _ => []

/-- The port registers after a list of port writes. -/
def applyWrites (ws : List (Port × Nat)) (st : Dev) : Dev :=
  ws.foldl (fun st w =>
    match w.1 with
    | Port.A => { st with PORTA := w.2 }
    | Port.B => { st with PORTB := w.2 }
    | Port.D => { st with PORTD := w.2 }) st

/-- The foreground writing the colour planes between two ticks. -/
def setPlanes (st : Dev) (planes : Rows × Rows) : Dev :=
  { st with reds := planes.1, greens := planes.2 }

/-- The state after `k` ticks when the foreground has put `planes i` into
`reds`/`greens` before tick `i`. -/
def runPlanes (st : Dev) (planes : Nat → Rows × Rows) (inp : Nat → Nat) : Nat → Dev
  | 0 => st
  | k + 1 => ISR (setPlanes (runPlanes st planes inp k) (planes k)) (inp k)

/-- Two handler states that agree on everything but the colour planes and the bits
3..7 of the latched row byte. -/
def sameDrive (a b : Dev) : Prop :=
  a.refresh_stage = b.refresh_stage ∧ a.new_buttons = b.new_buttons ∧
  a.frames_count = b.frames_count ∧ a.PORTA = b.PORTA ∧ a.PORTB = b.PORTB ∧
  a.PORTD = b.PORTD ∧ a.refresh_row &&& 7 = b.refresh_row &&& 7

/-- Colour planes of the end-to-end scenario, held constant. -/
def planesA (_k : Nat) : Rows × Rows := (⟨6, 5, 3⟩, ⟨7, 7, 7⟩)

/-- The same planes with other contents in bits 3..7. -/
def planesB (k : Nat) : Rows × Rows := (⟨0xfe, 0x85, 0x0b + 8 * (k % 31)⟩, ⟨0x0f, 0x47, 0xff⟩)

/-- The `case` labels of the `switch (++refresh_stage)` of the handler, in source
order. -/
def switchLabels : List Nat :=
  [19, 1, 2, 5, 8, 3, 6, 9, 4, 7, 10, 11, 14, 17, 12, 15, 18, 13, 16]

/-- The die faces, `dies[]` in program memory. -/
def dies : List Nat := [0xef, 0xd7, 0xab, 0x3a, 0x2a, 0x12]

/-- The red bitmap of the die branch of `main` for table index `k`:
`v = dies[k]; fill_frame(reds, v | 0x40, v >> 6)`. -/
def die_frame (k : Nat) : Rows :=
  let v := dies.getD k 0
  fill_frame (v ||| 0x40) (v >>> 6)

/-- The table index `rand() % 6` drawn by the die branch from `random_seed`. -/
def die_index (random_seed : Nat) : Nat :=
  (rand random_seed).1 % 6

/-- Number of lit LEDs of a row: zero bits among the three low bits. -/
def litRow (x : Nat) : Nat :=
  (1 - bitAt x 0) + (1 - bitAt x 1) + (1 - bitAt x 2)

/-- Number of lit LEDs of a plane. -/
def litCount (r : Rows) : Nat :=
  litRow r.r0 + litRow r.r1 + litRow r.r2

/-- The seed update performed by one call of `rand()`. -/
def nextSeed (s : Nat) : Nat := (rand s).2

/-- One row of the editor's toggle loop: `reds[i] ^= buttons[i];
if (reds[i] & buttons[i]) greens[i] ^= buttons[i];` -/
def toggle_row (r g b : Nat) : Nat × Nat :=
  let r := r ^^^ b
  (r, if r &&& b ≠ 0 then g ^^^ b else g)

/-- The editor branch of `main` between two calls of `read_buttons`: the handler-shared
state, the stored animation, the local `frame`, whether the branch is still running
(false after `goto main_menu`), and the record of the indices used: every argument of
`load_frame` and every index `frame` used on `message_reds`, `message_greens` and (as
`frame >> 2`) `message_tails`, most recent first. -/
structure Ed where
  dev : Dev
  msg : Msg
  frame : Nat
  running : Bool
  loads : List Nat
  stores : List Nat

/-- Entry of the editor branch: `uint8_t frame = 0;` and the first `load_frame(frame)`. -/
def editor_enter (dev : Dev) (msg : Msg) : Ed :=
  { dev := load_frame msg dev 0, msg := msg, frame := 0, running := true,
    loads := [0], stores := [] }

/-- One pass of the editor's inner loop after `read_buttons()` has returned with
`new_buttons[0] = nb0` and the edge bitmap `buttons`: the chord dispatch, up to and
including the `load_frame(frame)` that follows a `break`. -/
def editor_event (e : Ed) (ev : Nat × Rows) : Ed :=
  if e.running then
    let chord := ev.1 &&& 7
    if chord = 1 then
      let frame := (e.frame + 1) % 256
      let msg := { e.msg with message_size := frame }
      if frame = MESSAGE_MAX then
        { e with frame := frame, msg := msg, running := false }
      else
        { e with frame := frame, msg := msg, dev := load_frame msg e.dev frame,
                 loads := frame :: e.loads }
    else if chord = 4 then
      let frame := if e.frame > 0 then e.frame - 1 else e.frame
      { e with frame := frame, dev := load_frame e.msg e.dev frame,
               loads := frame :: e.loads }
    else if chord = 2 then
      { e with msg := { e.msg with message_size := e.frame }, running := false }
    else
      let msg := editor_store e.msg e.dev.reds e.dev.greens e.frame
      let t2 := toggle_row e.dev.reds.r2 e.dev.greens.r2 ev.2.r2
      let t1 := toggle_row e.dev.reds.r1 e.dev.greens.r1 ev.2.r1
      let t0 := toggle_row e.dev.reds.r0 e.dev.greens.r0 ev.2.r0
      { e with msg := msg, stores := e.frame :: e.stores,
               dev := { e.dev with reds := ⟨t0.1, t1.1, t2.1⟩, greens := ⟨t0.2, t1.2, t2.2⟩ } }
  else e

/-- The editor branch fed with a sequence of `read_buttons` results. -/
def editor_run (e : Ed) (evs : List (Nat × Rows)) : Ed :=
  evs.foldl editor_event e

/-- The arguments of `load_frame` in a player loop
`for (uint8_t i = 0; i < message_size; ++i) { load_frame(i); ...; if (peek_buttons()) goto main_menu; }`
(the slow and the fast player differ only in what stands for `...`): `stop i` tells
whether the poll after frame `i` reported a press. -/
def player_loop : Nat → Nat → Nat → (Nat → Bool) → List Nat
  | 0, _, _, _ => []
  | fuel + 1, i, message_size, stop =>
    if i < message_size then
      i :: (if stop i then [] else player_loop fuel ((i + 1) % 256) message_size stop)
    else []

/-- The bounds kept by the editor branch: while it runs `frame` is below `MESSAGE_MAX`,
every recorded index is below `MESSAGE_MAX`, and `message_size` is at most
`MESSAGE_MAX`. -/
def edInv (e : Ed) : Prop :=
  (e.running = true → e.frame < MESSAGE_MAX) ∧ (∀ i ∈ e.loads, i < MESSAGE_MAX) ∧
  (∀ i ∈ e.stores, i < MESSAGE_MAX) ∧ e.msg.message_size ≤ MESSAGE_MAX

/-- A short editing session: toggle, next frame, toggle, previous frame, end. -/
def someSession : List (Nat × Rows) :=
  [(0, ⟨1, 0, 0⟩), (1, ⟨0, 0, 0⟩), (7, ⟨0, 2, 0⟩), (4, ⟨0, 0, 0⟩), (1, ⟨0, 0, 0⟩),
   (2, ⟨0, 0, 0⟩)]

/-! ## The refresh state machine -/

theorem ISR_stage (st : Dev) (p : Nat) :
    (ISR st p).refresh_stage = nextStage st.refresh_stage := by
  unfold ISR nextStage
  simp only
  split <;> simp_all [case1, red_wrap, green_wrap]

theorem ISR_frames (st : Dev) (p : Nat) :
    (ISR st p).frames_count =
      if isWrap st then (st.frames_count + 255) % 256 else st.frames_count := by
  unfold ISR isWrap
  simp only
  split <;> simp_all [case1, red_wrap, green_wrap]

theorem ISR_reds_greens (st : Dev) (p : Nat) :
    (ISR st p).reds = st.reds ∧ (ISR st p).greens = st.greens := by
  unfold ISR
  simp only
  split <;> simp [case1, red_wrap, green_wrap]

/-- Closed form of the stage after `k + 1` ticks from a stage in `[0,18]`. -/
theorem runTicks_stage (st : Dev) (inp : Nat → Nat) (h18 : st.refresh_stage ≤ 18) (k : Nat) :
    (runTicks st inp (k + 1)).refresh_stage = (st.refresh_stage + k) % 18 + 1 := by
  induction k with
  | zero =>
    simp only [runTicks, ISR_stage, nextStage, Nat.add_zero]
    split <;> omega
  | succ k ih =>
    rw [runTicks, ISR_stage, ih, nextStage]
    have hlt : (st.refresh_stage + k) % 18 < 18 := Nat.mod_lt _ (by decide)
    split <;> omega

/-- Closed form of the number of frame wraps among the first `k` ticks. -/
theorem wrapCount_eq (st : Dev) (inp : Nat → Nat) (h18 : st.refresh_stage ≤ 18) (k : Nat) :
    wrapCount st inp k = (st.refresh_stage + k - 1) / 18 := by
  induction k with
  | zero =>
    simp only [wrapCount, Nat.add_zero]
    omega
  | succ k ih =>
    rw [wrapCount, ih, isWrap]
    cases k with
    | zero =>
      simp only [runTicks]
      split <;> simp at * <;> omega
    | succ j =>
      rw [runTicks_stage st inp h18 j]
      have hlt : (st.refresh_stage + j) % 18 < 18 := Nat.mod_lt _ (by decide)
      split <;> simp at * <;> omega

/-- The countdown after `k` ticks is the start value decremented once per wrap. -/
theorem runTicks_frames (st : Dev) (inp : Nat → Nat) (k : Nat) :
    (runTicks st inp k).frames_count =
      (fun c => (c + 255) % 256)^[wrapCount st inp k] st.frames_count := by
  induction k with
  | zero => simp [runTicks, wrapCount]
  | succ k ih =>
    simp only [runTicks, wrapCount, ISR_frames]
    split
    · rw [Function.iterate_succ_apply', ih]
    · simpa using ih

/-- C1: from any stage in `[1,18]`, 18 timer ticks (with arbitrary input samples) bring
`refresh_stage` back to its starting value and leave `frames_count` at its starting
value minus 1 modulo 256; exactly one of the 18 ticks is the 18 -> 1 wrap; and the
stage after a tick is determined by the stage before it alone. -/
theorem C1_refresh_cycle (st : Dev) (inp : Nat → Nat)
    (h1 : 1 ≤ st.refresh_stage) (h18 : st.refresh_stage ≤ 18) :
    (runTicks st inp 18).refresh_stage = st.refresh_stage ∧
    (runTicks st inp 18).frames_count = (st.frames_count + 255) % 256 ∧
    wrapCount st inp 18 = 1 ∧
    (∀ (a b : Dev) (p q : Nat), a.refresh_stage = b.refresh_stage →
      (ISR a p).refresh_stage = (ISR b q).refresh_stage) := by
  have hw : wrapCount st inp 18 = 1 := by
    rw [wrapCount_eq st inp h18]; omega
  refine ⟨?_, ?_, hw, ?_⟩
  · rw [runTicks_stage st inp h18 17]; omega
  · rw [runTicks_frames, hw]; rfl
  · intro a b p q hab
    rw [ISR_stage, ISR_stage, hab]

theorem C1_refresh_cycle_witness :
    (1 ≤ midFrame.refresh_stage ∧ midFrame.refresh_stage ≤ 18) ∧
    ((runTicks midFrame pins 18).refresh_stage = midFrame.refresh_stage ∧
     (runTicks midFrame pins 18).frames_count = (midFrame.frames_count + 255) % 256 ∧
     wrapCount midFrame pins 18 = 1 ∧
     (∀ (a b : Dev) (p q : Nat), a.refresh_stage = b.refresh_stage →
       (ISR a p).refresh_stage = (ISR b q).refresh_stage)) :=
  ⟨by decide, C1_refresh_cycle midFrame pins (by decide) (by decide)⟩

/-- The tick entering red stage `3k+1` latches `reds[k]`, samples the buttons of row `k`
and selects row `k`. -/
theorem ISR_red_slot (st : Dev) (p k : Nat) (hk : k < 3)
    (he : (ISR st p).refresh_stage = 3 * k + 1) :
    (ISR st p).refresh_row = st.reds.get k ∧
    (ISR st p).new_buttons = st.new_buttons.set k ((p % 256) >>> 3) ∧
    (ISR st p).PORTB = rowSelect k := by
  revert he
  unfold ISR
  simp only
  interval_cases k <;> split <;> intro he <;>
    simp_all [case1, red_wrap, green_wrap, Rows.get, Rows.set, rowSelect]

/-- The tick entering green stage `10+3k` latches `greens[k]` and selects row `k`;
it does not touch `new_buttons`. -/
theorem ISR_green_slot (st : Dev) (p k : Nat) (hk : k < 3)
    (he : (ISR st p).refresh_stage = 10 + 3 * k) :
    (ISR st p).refresh_row = st.greens.get k ∧
    (ISR st p).PORTB = rowSelect k ∧
    (ISR st p).new_buttons = st.new_buttons := by
  revert he
  unfold ISR
  simp only
  interval_cases k <;> split <;> intro he <;>
    simp_all [case1, red_wrap, green_wrap, Rows.get, Rows.set, rowSelect]

/-- A tick entering any stage other than 1, 4, 7, 10, 13, 16 leaves `refresh_row`,
`PORTB` and `new_buttons` alone. -/
theorem ISR_drive_slot (st : Dev) (p : Nat)
    (he : (ISR st p).refresh_stage ∉ [1, 4, 7, 10, 13, 16]) :
    (ISR st p).refresh_row = st.refresh_row ∧
    (ISR st p).PORTB = st.PORTB ∧
    (ISR st p).new_buttons = st.new_buttons := by
  revert he
  unfold ISR
  simp only
  split <;> intro he <;> simp_all [case1, red_wrap, green_wrap]

/-- How one tick changes the sample of button row `k`. -/
theorem ISR_new_buttons_get (st : Dev) (p k : Nat) (hk : k < 3) :
    (ISR st p).new_buttons.get k =
      if (ISR st p).refresh_stage = 3 * k + 1 then (p % 256) >>> 3
      else st.new_buttons.get k := by
  by_cases he : (ISR st p).refresh_stage = 3 * k + 1
  · rw [if_pos he, (ISR_red_slot st p k hk he).2.1]
    interval_cases k <;> rfl
  · rw [if_neg he]
    by_cases hs : (ISR st p).refresh_stage ∈ [1, 4, 7, 10, 13, 16]
    · simp only [List.mem_cons, List.mem_singleton, List.not_mem_nil, or_false] at hs
      rcases hs with h | h | h | h | h | h
      · rw [(ISR_red_slot st p 0 (by decide) h).2.1]
        interval_cases k <;> first | rfl | omega
      · rw [(ISR_red_slot st p 1 (by decide) h).2.1]
        interval_cases k <;> first | rfl | omega
      · rw [(ISR_red_slot st p 2 (by decide) h).2.1]
        interval_cases k <;> first | rfl | omega
      · rw [(ISR_green_slot st p 0 (by decide) h).2.2]
      · rw [(ISR_green_slot st p 1 (by decide) h).2.2]
      · rw [(ISR_green_slot st p 2 (by decide) h).2.2]
    · rw [(ISR_drive_slot st p hs).2.2]

/-- Within one 18-tick window a button sample taken at tick `t` is still in place
at every later tick of the window. -/
theorem runTicks_sample_kept (st : Dev) (inp : Nat → Nat) (h18 : st.refresh_stage ≤ 18)
    (k t : Nat) (hk : k < 3) (ht : t < 18)
    (he : (runTicks st inp (t + 1)).refresh_stage = 3 * k + 1)
    (m : Nat) (hm : t + 1 ≤ m) (hm18 : m ≤ 18) :
    (runTicks st inp m).new_buttons.get k = (inp t % 256) >>> 3 := by
  induction m, hm using Nat.le_induction with
  | base =>
    rw [runTicks, ISR_new_buttons_get _ _ k hk]
    rw [runTicks] at he
    rw [if_pos he]
  | succ m hm ih =>
    rw [runTicks, ISR_new_buttons_get _ _ k hk]
    have hne : (ISR (runTicks st inp m) (inp m)).refresh_stage ≠ 3 * k + 1 := by
      have h1 := runTicks_stage st inp h18 m
      rw [runTicks] at h1
      rw [runTicks_stage st inp h18 t] at he
      rw [h1]
      omega
    rw [if_neg hne]
    exact ih (by omega)

/-- C2: the stage-to-action table of the timer handler.  For every state and input byte:
the tick entering stage `3k+1` sets `refresh_row` to `reds[k]`, stores `PINB >> 3` in
`new_buttons[k]` and leaves `PORTB` at the row select `0x04, 0x02, 0x40`; the tick
entering stage `10+3k` sets `refresh_row` to `greens[k]` with the same row select and
does not write `new_buttons`; a tick entering any other stage changes none of
`refresh_row`, `PORTB`, `new_buttons`; no tick changes `reds` or `greens`.  From a
stage in `[0,18]`, in 18 consecutive ticks every stage `1..18` is entered at exactly one
tick, and afterwards `new_buttons[k]` is the input sampled at the stage-`(3k+1)` tick. -/
theorem C2_stage_action_table (st : Dev) (inp : Nat → Nat) (h18 : st.refresh_stage ≤ 18) :
    (∀ (a : Dev) (p k : Nat), k < 3 → (ISR a p).refresh_stage = 3 * k + 1 →
      (ISR a p).refresh_row = a.reds.get k ∧
      (ISR a p).new_buttons = a.new_buttons.set k ((p % 256) >>> 3) ∧
      (ISR a p).PORTB = rowSelect k) ∧
    (∀ (a : Dev) (p k : Nat), k < 3 → (ISR a p).refresh_stage = 10 + 3 * k →
      (ISR a p).refresh_row = a.greens.get k ∧
      (ISR a p).PORTB = rowSelect k ∧
      (ISR a p).new_buttons = a.new_buttons) ∧
    (∀ (a : Dev) (p : Nat), (ISR a p).refresh_stage ∉ [1, 4, 7, 10, 13, 16] →
      (ISR a p).refresh_row = a.refresh_row ∧
      (ISR a p).PORTB = a.PORTB ∧
      (ISR a p).new_buttons = a.new_buttons) ∧
    (∀ (a : Dev) (p : Nat), (ISR a p).reds = a.reds ∧ (ISR a p).greens = a.greens) ∧
    (∀ j, 1 ≤ j → j ≤ 18 →
      ∃! t, t < 18 ∧ (runTicks st inp (t + 1)).refresh_stage = j) ∧
    (∀ k t, k < 3 → t < 18 → (runTicks st inp (t + 1)).refresh_stage = 3 * k + 1 →
      (runTicks st inp 18).new_buttons.get k = (inp t % 256) >>> 3) := by
  refine ⟨ISR_red_slot, ISR_green_slot, ISR_drive_slot, ISR_reds_greens, ?_, ?_⟩
  · intro j hj1 hj18
    refine ⟨(j + 35 - st.refresh_stage) % 18, ⟨Nat.mod_lt _ (by decide), ?_⟩, ?_⟩
    · rw [runTicks_stage st inp h18]; omega
    · rintro t ⟨ht, hs⟩
      rw [runTicks_stage st inp h18] at hs
      omega
  · intro k t hk ht he
    exact runTicks_sample_kept st inp h18 k t hk ht he 18 (by omega) (le_refl 18)

theorem C2_stage_action_table_witness :
    midFrame.refresh_stage ≤ 18 ∧
    (∀ j, 1 ≤ j → j ≤ 18 →
      ∃! t, t < 18 ∧ (runTicks midFrame pins (t + 1)).refresh_stage = j) ∧
    (∀ k t, k < 3 → t < 18 → (runTicks midFrame pins (t + 1)).refresh_stage = 3 * k + 1 →
      (runTicks midFrame pins 18).new_buttons.get k = (pins t % 256) >>> 3) :=
  ⟨by decide, (C2_stage_action_table midFrame pins (by decide)).2.2.2.2⟩

/-! ## The frame-synchronous timer -/

theorem iterate_dec (w c : Nat) (hw : w ≤ c) (hc : c < 256) :
    (fun c => (c + 255) % 256)^[w] c = c - w := by
  induction w with
  | zero => simp
  | succ w ih =>
    rw [Function.iterate_succ_apply', ih (by omega)]
    show (c - w + 255) % 256 = c - (w + 1)
    omega

/-- The wait loop returns at tick `N` when `N` is the first tick after `t` at which the
countdown reads zero. -/
theorem sleepLoop_returns (st0 : Dev) (inp : Nat → Nat) (N : Nat)
    (hpos : ∀ j, j < N → 0 < j → (runTicks st0 inp j).frames_count ≠ 0)
    (hzero : (runTicks st0 inp N).frames_count = 0) :
    ∀ (fuel t : Nat), t < N → N - t ≤ fuel →
      sleepLoop fuel (runTicks st0 inp t) inp t = some (runTicks st0 inp N, N) := by
  intro fuel
  induction fuel with
  | zero => intro t ht hf; omega
  | succ fuel ih =>
    intro t ht hf
    rw [sleepLoop]
    have hstep : ISR (runTicks st0 inp t) (inp t) = runTicks st0 inp (t + 1) := rfl
    simp only [hstep]
    by_cases hN : t + 1 = N
    · subst hN
      rw [if_pos hzero]
    · rw [if_neg (hpos (t + 1) (by omega) (by omega))]
      exact ih (t + 1) (by omega) (by omega)

/-- The wait loop does not return while the countdown is non-zero after every tick. -/
theorem sleepLoop_waits (st0 : Dev) (inp : Nat → Nat) :
    ∀ (fuel t : Nat),
      (∀ j, t < j → j ≤ t + fuel → (runTicks st0 inp j).frames_count ≠ 0) →
      sleepLoop fuel (runTicks st0 inp t) inp t = none := by
  intro fuel
  induction fuel with
  | zero => intro t _; rfl
  | succ fuel ih =>
    intro t h
    rw [sleepLoop]
    have hstep : ISR (runTicks st0 inp t) (inp t) = runTicks st0 inp (t + 1) := rfl
    simp only [hstep]
    rw [if_neg (h (t + 1) (by omega) (by omega))]
    exact ih (t + 1) (fun j h1 h2 => h j (by omega) (by omega))

/-- The countdown `j` ticks into `sleep(n)` entered at a stage in `[0,18]`, as long as
fewer than `n + 1` wraps have happened. -/
theorem sleep_countdown (st : Dev) (inp : Nat → Nat) (n j : Nat) (hn : n ≤ 255)
    (h18 : st.refresh_stage ≤ 18) (hw : (st.refresh_stage + j - 1) / 18 ≤ n) :
    (runTicks { st with frames_count := n % 256 } inp j).frames_count =
      n - (st.refresh_stage + j - 1) / 18 := by
  rw [runTicks_frames, wrapCount_eq _ inp (by simpa using h18)]
  simp only
  rw [Nat.mod_eq_of_lt (by omega)]
  exact iterate_dec _ _ hw (by omega)

/-- C3: `sleep(n)` for `n` in `[1,255]` entered at a stage `s` in `[1,18]` terminates,
and it returns exactly at the tick of the `n`-th frame wrap: after `18*(n-1) + (19-s)`
ticks (given at least that much fuel), not before (with less fuel the loop is still
waiting), with `frames_count = 0` and `refresh_stage = 1`; that tick is the `n`-th
wrap since the call. -/
theorem C3_sleep_exact (st : Dev) (inp : Nat → Nat) (n fuel : Nat)
    (hn1 : 1 ≤ n) (hn : n ≤ 255)
    (h1 : 1 ≤ st.refresh_stage) (h18 : st.refresh_stage ≤ 18)
    (hf : 18 * (n - 1) + (19 - st.refresh_stage) ≤ fuel) :
    (∃ st1, sleep fuel st n inp = some (st1, 18 * (n - 1) + (19 - st.refresh_stage)) ∧
      st1 = runTicks { st with frames_count := n % 256 } inp
              (18 * (n - 1) + (19 - st.refresh_stage)) ∧
      st1.frames_count = 0 ∧ st1.refresh_stage = 1) ∧
    (∀ fuel1, fuel1 < 18 * (n - 1) + (19 - st.refresh_stage) →
      sleep fuel1 st n inp = none) ∧
    wrapCount { st with frames_count := n % 256 } inp
      (18 * (n - 1) + (19 - st.refresh_stage)) = n ∧
    wrapCount { st with frames_count := n % 256 } inp
      (18 * (n - 1) + (19 - st.refresh_stage) - 1) = n - 1 := by
  have hN : 18 * (n - 1) + (19 - st.refresh_stage) =
      18 * (n - 1) + (18 - st.refresh_stage) + 1 := by omega
  have hpos : ∀ j, j < 18 * (n - 1) + (19 - st.refresh_stage) →
      (runTicks { st with frames_count := n % 256 } inp j).frames_count ≠ 0 := by
    intro j hj
    rw [sleep_countdown st inp n j hn h18 (by omega)]
    omega
  have hzero : (runTicks { st with frames_count := n % 256 } inp
      (18 * (n - 1) + (19 - st.refresh_stage))).frames_count = 0 := by
    rw [sleep_countdown st inp n _ hn h18 (by omega)]
    omega
  refine ⟨⟨_, ?_, rfl, hzero, ?_⟩, ?_, ?_, ?_⟩
  · exact sleepLoop_returns _ inp _ (fun j hj _ => hpos j hj) hzero fuel 0
      (by omega) (by omega)
  · rw [hN, runTicks_stage _ inp (by simpa using h18)]
    simp only
    omega
  · intro fuel1 hlt
    exact sleepLoop_waits _ inp fuel1 0 (fun j _ hj => hpos j (by omega))
  · rw [wrapCount_eq _ inp (by simpa using h18)]
    simp only
    omega
  · rw [wrapCount_eq _ inp (by simpa using h18)]
    simp only
    omega

theorem C3_sleep_exact_witness :
    (1 ≤ 3 ∧ 3 ≤ 255 ∧ 1 ≤ midFrame.refresh_stage ∧ midFrame.refresh_stage ≤ 18 ∧
      18 * (3 - 1) + (19 - midFrame.refresh_stage) ≤ 100) ∧
    (∃ st1, sleep 100 midFrame 3 pins = some (st1, 18 * (3 - 1) + (19 - midFrame.refresh_stage)) ∧
      st1 = runTicks { midFrame with frames_count := 3 % 256 } pins
              (18 * (3 - 1) + (19 - midFrame.refresh_stage)) ∧
      st1.frames_count = 0 ∧ st1.refresh_stage = 1) ∧
    (∀ fuel1, fuel1 < 18 * (3 - 1) + (19 - midFrame.refresh_stage) →
      sleep fuel1 midFrame 3 pins = none) :=
  ⟨by decide,
   (C3_sleep_exact midFrame pins 3 100 (by decide) (by decide) (by decide) (by decide)
      (by decide)).1,
   (C3_sleep_exact midFrame pins 3 100 (by decide) (by decide) (by decide) (by decide)
      (by decide)).2.1⟩

theorem iterate_dec_zero (w : Nat) (h1 : 1 ≤ w) (hw : w ≤ 256) :
    (fun c => (c + 255) % 256)^[w] 0 = 256 - w := by
  induction w with
  | zero => omega
  | succ w ih =>
    rw [Function.iterate_succ_apply']
    by_cases h0 : w = 0
    · subst h0; rfl
    · rw [ih (by omega) (by omega)]
      show (256 - w + 255) % 256 = 256 - (w + 1)
      omega

/-- The wait loop only returns after consuming a tick. -/
theorem sleepLoop_ticks (inp : Nat → Nat) :
    ∀ (fuel : Nat) (st st1 : Dev) (t m : Nat),
      sleepLoop fuel st inp t = some (st1, m) → t < m := by
  intro fuel
  induction fuel with
  | zero => intro st st1 t m h; simp [sleepLoop] at h
  | succ fuel ih =>
    intro st st1 t m h
    rw [sleepLoop] at h
    split at h
    · simp only [Option.some.injEq, Prod.mk.injEq] at h
      omega
    · have := ih _ _ _ _ h
      omega

/-- C4 (as the claim states it, refuted): `sleep(0)` called in the middle of a frame
(stage 7) returns after one consumed tick, not zero; called at stage 18 it returns
only after 4591 ticks (the first tick wraps the countdown from 0 to 255), and is still
waiting with fuel 4590. -/
theorem C4_sleep_zero_counterexample :
    sleep 1 midFrame 0 pins = some (ISR { midFrame with frames_count := 0 } (pins 0), 1) ∧
    (∀ fuel st1, sleep fuel midFrame 0 pins ≠ some (st1, 0)) ∧
    (∃ st1, sleep 4591 lastStage 0 pins = some (st1, 4591)) ∧
    sleep 4590 lastStage 0 pins = none := by
  have hfc : ∀ j, 0 < j → j ≤ 4591 →
      (runTicks { lastStage with frames_count := 0 % 256 } pins j).frames_count =
        256 - (17 + j) / 18 := by
    intro j h0 hj
    rw [runTicks_frames, wrapCount_eq _ pins (by decide)]
    have hs : ({ lastStage with frames_count := 0 % 256 } : Dev).refresh_stage = 18 := rfl
    have hc : ({ lastStage with frames_count := 0 % 256 } : Dev).frames_count = 0 := rfl
    rw [hs, hc, iterate_dec_zero _ (by omega) (by omega)]
    omega
  refine ⟨by decide, ?_, ?_, ?_⟩
  · intro fuel st1 h
    have := sleepLoop_ticks pins fuel _ st1 0 0 h
    omega
  · exact ⟨_, sleepLoop_returns _ pins 4591
      (fun j hj h0 => by rw [hfc j h0 (by omega)]; omega)
      (by rw [hfc 4591 (by omega) (by omega)]) 4591 0 (by omega) (by omega)⟩
  · exact sleepLoop_waits _ pins 4590 0
      (fun j h0 hj => by rw [hfc j h0 (by omega)]; omega)

/-- C4 (amended): `sleep(0)` never returns without consuming a timer tick, in every
state (stage 18 included) and with any fuel: a returned tick count is at least 1.
Called at a stage in `[0,17]`, where the next tick is not a frame wrap, it returns
after exactly one tick (for any fuel of at least 1) with `frames_count = 0`. -/
theorem C4_sleep_zero_one_tick (st : Dev) (inp : Nat → Nat) :
    (∀ fuel st1, sleep fuel st 0 inp ≠ some (st1, 0)) ∧
    (∀ fuel st1 n, sleep fuel st 0 inp = some (st1, n) → 1 ≤ n) ∧
    (st.refresh_stage < 18 → ∀ fuel, 1 ≤ fuel →
      sleep fuel st 0 inp = some (ISR { st with frames_count := 0 } (inp 0), 1) ∧
      (ISR { st with frames_count := 0 } (inp 0)).frames_count = 0) := by
  refine ⟨?_, ?_, ?_⟩
  · intro fuel st1 h
    have := sleepLoop_ticks inp fuel _ st1 0 0 h
    omega
  · intro fuel st1 n h
    have := sleepLoop_ticks inp fuel _ st1 0 n h
    omega
  · intro hs fuel hf
    have hfc : (ISR { st with frames_count := 0 } (inp 0)).frames_count = 0 := by
      rw [ISR_frames, isWrap]
      have : ¬ (st.refresh_stage + 1) % 256 = 19 := by omega
      simp [this]
    refine ⟨?_, hfc⟩
    obtain ⟨f, rfl⟩ : ∃ f, fuel = f + 1 := ⟨fuel - 1, by omega⟩
    show sleepLoop (f + 1) { st with frames_count := 0 } inp 0 = _
    rw [sleepLoop]
    simp only [hfc, if_true]

theorem C4_sleep_zero_one_tick_witness :
    (midFrame.refresh_stage < 18 ∧ 1 ≤ 5) ∧
    (sleep 5 midFrame 0 pins = some (ISR { midFrame with frames_count := 0 } (pins 0), 1) ∧
      (ISR { midFrame with frames_count := 0 } (pins 0)).frames_count = 0) ∧
    (lastStage.refresh_stage = 18 ∧ ∀ fuel st1, sleep fuel lastStage 0 pins ≠ some (st1, 0)) :=
  ⟨by decide, (C4_sleep_zero_one_tick midFrame pins).2.2 (by decide) 5 (by decide),
   rfl, (C4_sleep_zero_one_tick lastStage pins).1⟩

/-! ## The edge detector -/

theorem testBit_seven (i : Nat) : Nat.testBit 7 i = decide (i < 3) :=
  Nat.testBit_two_pow_sub_one 3 i

/-- Every bit of the byte returned by `read_btn_row`. -/
theorem read_btn_row_testBit (cur prev i : Nat) :
    (read_btn_row cur prev).1.testBit i =
      (decide (i < 8) && (!(cur.testBit i && decide (i < 3)) && prev.testBit i)) := by
  have ht : cur &&& 7 < 2 ^ 16 :=
    lt_of_le_of_lt Nat.and_le_right (by decide)
  have h16 : 65535 - (cur &&& 7) = 2 ^ 16 - ((cur &&& 7) + 1) := by omega
  show (((65535 - (cur &&& 7)) &&& prev) % 2 ^ 8).testBit i = _
  rw [Nat.testBit_mod_two_pow, Nat.testBit_land, h16, Nat.testBit_two_pow_sub_succ ht,
    Nat.testBit_land, testBit_seven]
  by_cases h8 : i < 8
  · have : i < 16 := by omega
    simp [h8, this]
  · simp [h8]

/-- C5: for every current sample `cur`, stored previous byte `prev` and bit position
`b` in `{0,1,2}`, bit `b` of the byte returned by `read_btn_row` is 1 exactly when bit
`b` of `cur` is 0 and bit `b` of `prev` is 1; afterwards the stored previous sample is
`cur & 7`. -/
theorem C5_read_btn_row_edge (cur prev b : Nat) (hb : b < 3) :
    ((read_btn_row cur prev).1.testBit b = true ↔
      (cur.testBit b = false ∧ prev.testBit b = true)) ∧
    (read_btn_row cur prev).2 = cur &&& 7 := by
  refine ⟨?_, rfl⟩
  rw [read_btn_row_testBit]
  have h8 : b < 8 := by omega
  simp [hb, h8]

theorem C5_read_btn_row_edge_witness :
    2 < 3 ∧
    (((read_btn_row 0xfb 0x07).1.testBit 2 = true ↔
      (Nat.testBit 0xfb 2 = false ∧ Nat.testBit 0x07 2 = true)) ∧
    (read_btn_row 0xfb 0x07).2 = 0xfb &&& 7) :=
  ⟨by decide, C5_read_btn_row_edge 0xfb 0x07 2 (by decide)⟩

/-- C6: a held button is reported once.  Calling `read_btn_row` twice in a row on the
same row with the same sample `x` makes the second call return 0, whatever the
previous byte was; and a bit that is 0 (pressed) in two consecutive samples `x1`, `x2`
is 0 in the result of the second call. -/
theorem C6_held_button_once (x x1 x2 prev : Nat) :
    (read_btn_row x (read_btn_row x prev).2).1 = 0 ∧
    (∀ b, x1.testBit b = false → x2.testBit b = false →
      (read_btn_row x2 (read_btn_row x1 prev).2).1.testBit b = false) := by
  constructor
  · apply Nat.eq_of_testBit_eq
    intro i
    rw [read_btn_row_testBit]
    show (_ && (_ && (x &&& 7).testBit i)) = _
    rw [Nat.testBit_land, testBit_seven, Nat.zero_testBit]
    cases x.testBit i <;> cases decide (i < 3) <;> simp
  · intro b h1 _
    rw [read_btn_row_testBit]
    show (_ && (_ && (x1 &&& 7).testBit b)) = _
    rw [Nat.testBit_land, h1]
    simp

/-! ## The frame codec -/

theorem and_seven (x : Nat) : x &&& 7 = x % 8 :=
  Nat.and_pow_two_sub_one_eq_mod x 3

theorem and_six (x : Nat) : x &&& 6 = (x % 8) &&& 6 := by
  rw [← and_seven, Nat.land_assoc]
  rfl

set_option maxRecDepth 100000 in
theorem pack_fill_bytes : ∀ v, v < 256 → ∀ b, b < 2 →
    ((v &&& 7) ||| (((v >>> 3) &&& 7) <<< 3) |||
      ((((v >>> 5) &&& 6) ||| b) &&& 6) <<< 5) % 256 = v := by
  decide

/-- Packing an unpacked frame gives back the 8-bit value. -/
theorem pack_fill (v t : Nat) : pack_frame (fill_frame v t) = v % 256 := by
  have hb : (t % 256) &&& 1 < 2 := by
    rw [Nat.and_one_is_mod]
    exact Nat.mod_lt _ (by decide)
  exact pack_fill_bytes (v % 256) (Nat.mod_lt _ (by decide)) ((t % 256) &&& 1) hb

/-- Bit 0 of row 2 of an unpacked frame is the tail bit. -/
theorem fill_frame_tail (v t : Nat) : (fill_frame v t).r2.testBit 0 = t.testBit 0 := by
  show ((((v % 256) >>> 5) &&& 6) ||| ((t % 2 ^ 8) &&& 1)).testBit 0 = _
  rw [Nat.testBit_lor, Nat.testBit_land, Nat.testBit_land, Nat.testBit_mod_two_pow]
  simp +decide

set_option maxRecDepth 100000 in
theorem fill_pack_bytes : ∀ a, a < 8 → ∀ b, b < 8 → ∀ c, c < 8 →
    ((a ||| (b <<< 3) ||| ((c &&& 6) <<< 5)) % 256 % 256) % 8 = a ∧
    (((a ||| (b <<< 3) ||| ((c &&& 6) <<< 5)) % 256 % 256) >>> 3) % 8 = b ∧
    (((((a ||| (b <<< 3) ||| ((c &&& 6) <<< 5)) % 256 % 256) >>> 5) &&& 6) |||
      (c % 2)) % 8 = c := by
  decide

/-- Unpacking a packed bitmap, with a tail whose bit 0 is bit 0 of row 2, restores the
three low bits of every row. -/
theorem fill_pack_low (d : Rows) (tail : Nat) (h : tail.testBit 0 = d.r2.testBit 0) :
    (fill_frame (pack_frame d) tail).r0 &&& 7 = d.r0 &&& 7 ∧
    (fill_frame (pack_frame d) tail).r1 &&& 7 = d.r1 &&& 7 ∧
    (fill_frame (pack_frame d) tail).r2 &&& 7 = d.r2 &&& 7 := by
  have ht : (tail % 256) &&& 1 = d.r2 % 8 % 2 := by
    have h2 := h
    simp only [Nat.testBit_zero, decide_eq_decide] at h2
    rw [Nat.and_one_is_mod]
    omega
  have key := fill_pack_bytes (d.r0 % 8) (Nat.mod_lt _ (by decide))
    (d.r1 % 8) (Nat.mod_lt _ (by decide)) (d.r2 % 8) (Nat.mod_lt _ (by decide))
  show ((d.r0 &&& 7 ||| (d.r1 &&& 7) <<< 3 ||| (d.r2 &&& 6) <<< 5) % 256 % 256) &&& 7
        = d.r0 &&& 7 ∧
      (((d.r0 &&& 7 ||| (d.r1 &&& 7) <<< 3 ||| (d.r2 &&& 6) <<< 5) % 256 % 256) >>> 3) &&& 7
        = d.r1 &&& 7 ∧
      (((((d.r0 &&& 7 ||| (d.r1 &&& 7) <<< 3 ||| (d.r2 &&& 6) <<< 5) % 256 % 256) >>> 5)
        &&& 6) ||| ((tail % 256) &&& 1)) &&& 7 = d.r2 &&& 7
  rw [ht, and_six d.r2]
  simp only [and_seven]
  exact key

/-- C7: for every 8-bit value `v` and every tail byte `t`, packing the bitmap written
by `fill_frame(d, v, t)` gives back `v`, and bit 0 of `d[2]` is bit 0 of `t`. -/
theorem C7_pack_unpack_roundtrip (v t : Nat) (hv : v < 256) :
    pack_frame (fill_frame v t) = v ∧
    (fill_frame v t).r2.testBit 0 = t.testBit 0 := by
  refine ⟨?_, fill_frame_tail v t⟩
  rw [pack_fill, Nat.mod_eq_of_lt hv]

theorem C7_pack_unpack_roundtrip_witness :
    0xe8 < 256 ∧
    pack_frame (fill_frame 0xe8 1) = 0xe8 ∧
    (fill_frame 0xe8 1).r2.testBit 0 = Nat.testBit 1 0 :=
  ⟨by decide, C7_pack_unpack_roundtrip 0xe8 1 (by decide)⟩

/-! ## The stored animation -/

/-- Bits of a tail byte after the editor's read-modify-write. -/
theorem tail_testBit (old m z k : Nat) :
    (((old &&& m) ||| z) % 256).testBit k =
      (decide (k < 8) && ((old.testBit k && m.testBit k) || z.testBit k)) := by
  have h256 : (256 : Nat) = 2 ^ 8 := rfl
  rw [h256, Nat.testBit_mod_two_pow, Nat.testBit_lor, Nat.testBit_land]

/-- The two bits written at shift `s` are the two bits of `y`. -/
theorem tail_same (old y s : Nat) (hs : s = 0 ∨ s = 2 ∨ s = 4 ∨ s = 6) :
    (((old &&& (65535 - (3 <<< s))) ||| (y <<< s)) % 256).testBit s = y.testBit 0 ∧
    (((old &&& (65535 - (3 <<< s))) ||| (y <<< s)) % 256).testBit (s + 1) = y.testBit 1 := by
  rw [tail_testBit, tail_testBit, Nat.testBit_shiftLeft, Nat.testBit_shiftLeft]
  rcases hs with rfl | rfl | rfl | rfl <;> simp +decide

/-- A write at shift `s` leaves the two bits at another shift `q` of a byte alone. -/
theorem tail_other (old y s q : Nat) (hs : s = 0 ∨ s = 2 ∨ s = 4 ∨ s = 6)
    (hq : q = 0 ∨ q = 2 ∨ q = 4 ∨ q = 6) (hne : s ≠ q) (hy : y < 4) :
    (((old &&& (65535 - (3 <<< s))) ||| (y <<< s)) % 256).testBit q = old.testBit q ∧
    (((old &&& (65535 - (3 <<< s))) ||| (y <<< s)) % 256).testBit (q + 1) =
      old.testBit (q + 1) := by
  rw [tail_testBit, tail_testBit, Nat.testBit_shiftLeft, Nat.testBit_shiftLeft]
  have hy2 : ∀ n, 2 ≤ n → y.testBit n = false := by
    intro n hn
    apply Nat.testBit_lt_two_pow
    calc y < 4 := hy
      _ = 2 ^ 2 := rfl
      _ ≤ 2 ^ n := Nat.pow_le_pow_right (by decide) hn
  rcases hs with rfl | rfl | rfl | rfl <;> rcases hq with rfl | rfl | rfl | rfl <;>
    first
    | exact absurd rfl hne
    | simp +decide [hy2]

/-- The shift `(frame & 3) << 1` is one of 0, 2, 4, 6. -/
theorem shift_cases (i : Nat) :
    (i &&& 3) <<< 1 = 0 ∨ (i &&& 3) <<< 1 = 2 ∨ (i &&& 3) <<< 1 = 4 ∨ (i &&& 3) <<< 1 = 6 := by
  have h : i &&& 3 < 4 := Nat.and_lt_two_pow i (show 3 < 2 ^ 2 by decide)
  generalize i &&& 3 = a at h
  interval_cases a <;> decide

/-- Two different frames sharing a tail byte use different shifts. -/
theorem shift_ne (i j : Nat) (hij : i ≠ j) (hb : i >>> 2 = j >>> 2) :
    (j &&& 3) <<< 1 ≠ (i &&& 3) <<< 1 := by
  have hi : i &&& 3 = i % 4 := Nat.and_pow_two_sub_one_eq_mod i 2
  have hj : j &&& 3 = j % 4 := Nat.and_pow_two_sub_one_eq_mod j 2
  rw [Nat.shiftRight_eq_div_pow, Nat.shiftRight_eq_div_pow] at hb
  rw [hi, hj, Nat.shiftLeft_eq, Nat.shiftLeft_eq]
  have : (2 : Nat) ^ 2 = 4 := rfl
  rw [this] at hb
  omega

/-- The two tail bits the editor stores: bit 0 from the red plane, bit 1 from the
green plane. -/
theorem tail_pair (r g : Nat) :
    ((r &&& 1) ||| ((g &&& 1) <<< 1)).testBit 0 = r.testBit 0 ∧
    ((r &&& 1) ||| ((g &&& 1) <<< 1)).testBit 1 = g.testBit 0 ∧
    (r &&& 1) ||| ((g &&& 1) <<< 1) < 4 := by
  refine ⟨?_, ?_, ?_⟩
  · rw [Nat.testBit_lor, Nat.testBit_land, Nat.testBit_shiftLeft]
    simp +decide
  · rw [Nat.testBit_lor, Nat.testBit_land, Nat.testBit_shiftLeft, Nat.testBit_land]
    simp +decide
  · have h1 : r &&& 1 < 2 := by rw [Nat.and_one_is_mod]; omega
    have h2 : g &&& 1 < 2 := by rw [Nat.and_one_is_mod]; omega
    have h3 : (g &&& 1) <<< 1 < 2 ^ 2 := by rw [Nat.shiftLeft_eq]; omega
    exact Nat.or_lt_two_pow (lt_trans h1 (by decide)) h3

/-- The editor's store makes frame `i` hold the stored bitmaps. -/
theorem editor_store_stored (m : Msg) (R G : Rows) (i : Nat) :
    frameStored (editor_store m R G i) i R G := by
  have hsh : ((i &&& 3) <<< 1) % 256 = (i &&& 3) <<< 1 := by
    rcases shift_cases i with h | h | h | h <;> rw [h]
  have hp := tail_pair R.r2 G.r2
  have hs := tail_same (m.message_tails (i >>> 2))
    ((R.r2 &&& 1) ||| ((G.r2 &&& 1) <<< 1)) ((i &&& 3) <<< 1) (shift_cases i)
  refine ⟨?_, ?_, ?_, ?_⟩
  · simp [editor_store, setAt]
  · simp [editor_store, setAt]
  · simp only [editor_store, setAt, if_true, hsh]
    rw [hs.1, hp.1]
  · simp only [editor_store, setAt, if_true, hsh]
    rw [hs.2, hp.2.1]

/-- The editor's store at frame `j` does not disturb what another frame `i` holds. -/
theorem editor_store_keeps (m : Msg) (R G R1 G1 : Rows) (i j : Nat) (hij : i ≠ j)
    (h : frameStored m i R G) : frameStored (editor_store m R1 G1 j) i R G := by
  have hsh : ((j &&& 3) <<< 1) % 256 = (j &&& 3) <<< 1 := by
    rcases shift_cases j with h | h | h | h <;> rw [h]
  obtain ⟨hr, hg, h0, h1⟩ := h
  refine ⟨?_, ?_, ?_, ?_⟩
  · simpa [editor_store, setAt, hij] using hr
  · simpa [editor_store, setAt, hij] using hg
  · simp only [editor_store, setAt, hsh]
    by_cases hb : i >>> 2 = j >>> 2
    · rw [if_pos hb, ← hb,
        (tail_other _ _ _ _ (shift_cases j) (shift_cases i) (shift_ne i j hij hb)
          (tail_pair R1.r2 G1.r2).2.2).1]
      exact h0
    · rw [if_neg hb]
      exact h0
  · simp only [editor_store, setAt, hsh]
    by_cases hb : i >>> 2 = j >>> 2
    · rw [if_pos hb, ← hb,
        (tail_other _ _ _ _ (shift_cases j) (shift_cases i) (shift_ne i j hij hb)
          (tail_pair R1.r2 G1.r2).2.2).2]
      exact h1
    · rw [if_neg hb]
      exact h1

/-- Loading a frame that holds `R`, `G` yields bitmaps that agree with them on the three
low bits of every row. -/
theorem load_frame_stored (m : Msg) (st : Dev) (R G : Rows) (i : Nat)
    (h : frameStored m i R G) :
    sameLow (load_frame m st i).reds R ∧ sameLow (load_frame m st i).greens G := by
  obtain ⟨hr, hg, h0, h1⟩ := h
  have h256 : (256 : Nat) = 2 ^ 8 := rfl
  constructor
  · show sameLow (fill_frame (m.message_reds i)
      ((m.message_tails (i >>> 2) >>> ((i &&& 3) <<< 1)) % 256)) R
    rw [hr]
    apply fill_pack_low
    rw [h256, Nat.testBit_mod_two_pow, Nat.testBit_shiftRight, ← h0]
    simp
  · show sameLow (fill_frame (m.message_greens i)
      (((m.message_tails (i >>> 2) >>> ((i &&& 3) <<< 1)) % 256) >>> 1)) G
    rw [hg]
    apply fill_pack_low
    rw [Nat.testBit_shiftRight, h256, Nat.testBit_mod_two_pow, Nat.testBit_shiftRight, ← h1]
    simp

/-- C8: for frame indices `i ≠ j` below 20, any prior contents of the store and any
bitmaps: the editor's store of `(R,G)` at frame `i`, then of `(R1,G1)` at frame `j`,
then `load_frame(i)` yields `reds` and `greens` that agree with `R` and `G` on the
three low bits of every row (and so does `load_frame(i)` right after the first store,
and `load_frame(j)` gives `R1`, `G1`). -/
theorem C8_store_load_roundtrip (m : Msg) (st : Dev) (R G R1 G1 : Rows) (i j : Nat)
    (_hi : i < MESSAGE_MAX) (_hj : j < MESSAGE_MAX) (hij : i ≠ j) :
    (sameLow (load_frame (editor_store (editor_store m R G i) R1 G1 j) st i).reds R ∧
     sameLow (load_frame (editor_store (editor_store m R G i) R1 G1 j) st i).greens G) ∧
    (sameLow (load_frame (editor_store m R G i) st i).reds R ∧
     sameLow (load_frame (editor_store m R G i) st i).greens G) ∧
    (sameLow (load_frame (editor_store (editor_store m R G i) R1 G1 j) st j).reds R1 ∧
     sameLow (load_frame (editor_store (editor_store m R G i) R1 G1 j) st j).greens G1) :=
  ⟨load_frame_stored _ st R G i
      (editor_store_keeps _ R G R1 G1 i j hij (editor_store_stored m R G i)),
   load_frame_stored _ st R G i (editor_store_stored m R G i),
   load_frame_stored _ st R1 G1 j (editor_store_stored _ R1 G1 j)⟩

theorem C8_store_load_roundtrip_witness :
    (5 < MESSAGE_MAX ∧ 6 < MESSAGE_MAX ∧ 5 ≠ 6) ∧
    sameLow (load_frame (editor_store (editor_store someMsg ⟨6, 5, 3⟩ ⟨7, 7, 6⟩ 5)
      ⟨0, 1, 2⟩ ⟨3, 4, 5⟩ 6) midFrame 5).reds ⟨6, 5, 3⟩ ∧
    sameLow (load_frame (editor_store (editor_store someMsg ⟨6, 5, 3⟩ ⟨7, 7, 6⟩ 5)
      ⟨0, 1, 2⟩ ⟨3, 4, 5⟩ 6) midFrame 5).greens ⟨7, 7, 6⟩ :=
  ⟨by decide,
   (C8_store_load_roundtrip someMsg midFrame ⟨6, 5, 3⟩ ⟨7, 7, 6⟩ ⟨0, 1, 2⟩ ⟨3, 4, 5⟩ 5 6
      (by decide) (by decide) (by decide)).1⟩

/-! ## The pseudo-random generator -/

theorem rand_seed (s : Nat) : (rand s).2 = (5 * s + 12345) % 65536 := by
  show (((s <<< 2) % 65536 + s) % 65536 + 12345) % 65536 = _
  rw [Nat.shiftLeft_eq]
  omega

/-- C9: for every value `s` of `random_seed` (in particular every 16-bit value), one
call of `rand()` leaves `random_seed = (5*s + 12345) mod 65536`: `(s<<2)+s+12345` in
16-bit arithmetic is exactly times 5 plus the constant modulo 65536; the new seed is
again a 16-bit value. -/
theorem C9_rand_seed_update (s : Nat) :
    (rand s).2 = (5 * s + 12345) % 65536 ∧ (rand s).2 < 65536 := by
  rw [rand_seed]
  exact ⟨rfl, Nat.mod_lt _ (by decide)⟩

/-- C10 (as the claim states it, refuted): from seed 0 the updated seed is 12345 and
`rand()` returns 129, which is neither `(12345 mod 256) >> 5 = 1` nor a value in
`[0,7]`. -/
theorem C10_rand_output_counterexample :
    (rand 0).2 = 12345 ∧ (rand 0).1 = 129 ∧
    ((5 * 0 + 12345) % 256) >>> 5 = 1 ∧
    (rand 0).1 ≠ ((5 * 0 + 12345) % 256) >>> 5 ∧ ¬ (rand 0).1 ≤ 7 := by
  decide

/-- C10 (amended): for every seed `s`, `rand()` returns bits 5..12 of the updated
16-bit seed, i.e. `(((5*s + 12345) mod 65536) >> 5) mod 256`, a value in `[0,255]`:
bit `i` of the result, for `i < 8`, is bit `i + 5` of the updated seed. -/
theorem C10_rand_output (s : Nat) :
    (rand s).1 = (((5 * s + 12345) % 65536) >>> 5) % 256 ∧
    (rand s).1 < 256 ∧
    (∀ i, i < 8 → (rand s).1.testBit i = ((5 * s + 12345) % 65536).testBit (i + 5)) := by
  have h : (rand s).1 = ((rand s).2 >>> 5) % 256 := rfl
  rw [h, rand_seed]
  refine ⟨rfl, Nat.mod_lt _ (by decide), ?_⟩
  intro i hi
  have h256 : (256 : Nat) = 2 ^ 8 := rfl
  rw [h256, Nat.testBit_mod_two_pow, Nat.testBit_shiftRight, Nat.add_comm 5 i]
  simp [hi]

/-! ## Polling all rows -/

theorem testBit_of_lt_eight (p i : Nat) (hp : p < 8) (hi : 3 ≤ i) : p.testBit i = false := by
  apply Nat.testBit_lt_two_pow
  calc p < 8 := hp
    _ = 2 ^ 3 := rfl
    _ ≤ 2 ^ i := Nat.pow_le_pow_right (by decide) hi

/-- With a previous byte below 8 the row result is an edge bitmap below 8, and it is
zero exactly when no bit position holds an edge. -/
theorem read_btn_row_small (cur prev : Nat) (hp : prev < 8) :
    (read_btn_row cur prev).1 < 8 ∧
    ((read_btn_row cur prev).1 = 0 ↔
      ∀ b, b < 3 → ¬ (cur.testBit b = false ∧ prev.testBit b = true)) := by
  have hhi : ∀ i, 3 ≤ i → (read_btn_row cur prev).1.testBit i = false := by
    intro i hi
    rw [read_btn_row_testBit, testBit_of_lt_eight prev i hp hi]
    simp
  refine ⟨Nat.lt_pow_two_of_testBit _ (fun i hi => hhi i hi), ?_, ?_⟩
  · intro h0 b hb
    have hb0 : (read_btn_row cur prev).1.testBit b = false := by rw [h0]; simp
    rw [read_btn_row_testBit] at hb0
    have h8 : b < 8 := by omega
    rintro ⟨hc, hpv⟩
    simp [hb, h8, hc, hpv] at hb0
  · intro h
    apply Nat.eq_of_testBit_eq
    intro i
    rw [Nat.zero_testBit]
    by_cases hi : i < 3
    · rw [read_btn_row_testBit]
      have := h i hi
      cases hc : cur.testBit i <;> cases hpv : prev.testBit i <;> simp_all
    · exact hhi i (by omega)

/-- After any sequence of polls from a zero `prev_buttons`, every stored previous
sample is below 8. -/
theorem pollSeq_prev_small (samples : List Rows) :
    ∀ (s : Fg), (s.prev_buttons.r0 < 8 ∧ s.prev_buttons.r1 < 8 ∧ s.prev_buttons.r2 < 8) →
      (pollSeq s samples).prev_buttons.r0 < 8 ∧ (pollSeq s samples).prev_buttons.r1 < 8 ∧
      (pollSeq s samples).prev_buttons.r2 < 8 := by
  induction samples with
  | nil => intro s h; exact h
  | cons nb rest ih =>
    intro s _
    apply ih
    have h7 : ∀ x : Nat, x &&& 7 < 8 := fun x =>
      Nat.and_lt_two_pow x (show 7 < 2 ^ 3 by decide)
    exact ⟨h7 _, h7 _, h7 _⟩

/-- The stored previous samples after a poll are the raw samples masked with 7. -/
theorem pollSeq_snoc_prev (s : Fg) (samples : List Rows) (x : Rows) :
    (pollSeq s (samples ++ [x])).prev_buttons = ⟨x.r0 &&& 7, x.r1 &&& 7, x.r2 &&& 7⟩ := by
  simp [pollSeq, List.foldl_append, peek_buttons, setNew, read_btn_row]

theorem lor_eq_zero (a b : Nat) : a ||| b = 0 ↔ a = 0 ∧ b = 0 := by
  constructor
  · intro h
    have hbit : ∀ i, a.testBit i = false ∧ b.testBit i = false := by
      intro i
      have := congrArg (fun x => Nat.testBit x i) h
      simpa [Nat.testBit_lor] using this
    exact ⟨Nat.eq_of_testBit_eq (fun i => by rw [(hbit i).1, Nat.zero_testBit]),
      Nat.eq_of_testBit_eq (fun i => by rw [(hbit i).2, Nat.zero_testBit])⟩
  · rintro ⟨rfl, rfl⟩
    rfl

theorem read_btn_row_bit (cur prev b : Nat) (hb : b < 3) :
    (read_btn_row cur prev).1.testBit b = true ↔
      (cur.testBit b = false ∧ prev.testBit b = true) := by
  rw [read_btn_row_testBit]
  have h8 : b < 8 := by omega
  simp [hb, h8]

/-- C13: starting from the power-on `prev_buttons = {0,0,0}` and after any sequence of
polls with arbitrary raw samples, a call of `peek_buttons` with raw samples `cur`
stores in `buttons[i]` the edge bitmap of row `i` (below 8; bit `b < 3` set exactly
when bit `b` of `cur[i]` is 0 and bit `b` of the stored previous sample is 1), sets
`prev_buttons[i]` to `cur[i] & 7`, and returns `buttons[0] | buttons[1] | buttons[2]`;
the returned value is 0 exactly when no bit position `b < 3` of any row is 0 in the
current sample and 1 in the row's previous sample.  The stored previous sample is
`{0,0,0}` before the first poll and the preceding raw sample masked with 7 after it. -/
theorem C13_peek_buttons (s0 : Fg) (samples : List Rows) (cur : Rows)
    (h0 : s0.prev_buttons = ⟨0, 0, 0⟩) :
    (∀ i, i < 3 →
      (pollAfter s0 samples cur).2.buttons.get i < 8 ∧
      (∀ b, b < 3 →
        (((pollAfter s0 samples cur).2.buttons.get i).testBit b = true ↔
          ((cur.get i).testBit b = false ∧
           ((pollSeq s0 samples).prev_buttons.get i).testBit b = true))) ∧
      (pollAfter s0 samples cur).2.prev_buttons.get i = cur.get i &&& 7) ∧
    (pollAfter s0 samples cur).1 =
      (pollAfter s0 samples cur).2.buttons.get 0 |||
      (pollAfter s0 samples cur).2.buttons.get 1 |||
      (pollAfter s0 samples cur).2.buttons.get 2 ∧
    ((pollAfter s0 samples cur).1 = 0 ↔
      ∀ i, i < 3 → ∀ b, b < 3 →
        ¬ ((cur.get i).testBit b = false ∧
           ((pollSeq s0 samples).prev_buttons.get i).testBit b = true)) ∧
    ((samples = [] → (pollSeq s0 samples).prev_buttons = ⟨0, 0, 0⟩) ∧
      ∀ rest x, samples = rest ++ [x] →
        (pollSeq s0 samples).prev_buttons = ⟨x.r0 &&& 7, x.r1 &&& 7, x.r2 &&& 7⟩) := by
  obtain ⟨hp0, hp1, hp2⟩ := pollSeq_prev_small samples s0 (by rw [h0]; decide)
  have e0 := read_btn_row_small cur.r0 _ hp0
  have e1 := read_btn_row_small cur.r1 _ hp1
  have e2 := read_btn_row_small cur.r2 _ hp2
  refine ⟨?_, rfl, ?_, ⟨fun hnil => by rw [hnil]; exact h0,
    fun rest x hx => by rw [hx]; exact pollSeq_snoc_prev s0 rest x⟩⟩
  · intro i hi
    interval_cases i
    · exact ⟨e0.1, fun b hb => read_btn_row_bit _ _ b hb, rfl⟩
    · exact ⟨e1.1, fun b hb => read_btn_row_bit _ _ b hb, rfl⟩
    · exact ⟨e2.1, fun b hb => read_btn_row_bit _ _ b hb, rfl⟩
  · show (read_btn_row cur.r0 (pollSeq s0 samples).prev_buttons.r0).1 |||
        (read_btn_row cur.r1 (pollSeq s0 samples).prev_buttons.r1).1 |||
        (read_btn_row cur.r2 (pollSeq s0 samples).prev_buttons.r2).1 = 0 ↔ _
    rw [lor_eq_zero, lor_eq_zero, e0.2, e1.2, e2.2]
    constructor
    · rintro ⟨⟨h0, h1⟩, h2⟩ i hi
      interval_cases i
      · exact h0
      · exact h1
      · exact h2
    · intro h
      exact ⟨⟨h 0 (by decide), h 1 (by decide)⟩, h 2 (by decide)⟩

theorem C13_peek_buttons_witness :
    boot.prev_buttons = ⟨0, 0, 0⟩ ∧
    ((pollAfter boot [⟨0xff, 0x07, 0xa7⟩] ⟨0xfb, 0x0f, 0x17⟩).1 = 0 ↔
      ∀ i, i < 3 → ∀ b, b < 3 →
        ¬ ((Rows.get ⟨0xfb, 0x0f, 0x17⟩ i).testBit b = false ∧
           ((pollSeq boot [⟨0xff, 0x07, 0xa7⟩]).prev_buttons.get i).testBit b = true)) :=
  ⟨rfl, (C13_peek_buttons boot [⟨0xff, 0x07, 0xa7⟩] ⟨0xfb, 0x0f, 0x17⟩ rfl).2.2.1⟩

/-! ## Waiting for a press, and the power-down path -/

theorem peek_buttons_dev (s : Fg) : (peek_buttons s).2.dev = s.dev := rfl

theorem idleIter_dev (s : Fg) (inp : Nat → Nat) (j : Nat) :
    (idleIter s inp j).dev = runTicks s.dev inp j := by
  induction j with
  | zero => rfl
  | succ j ih =>
    rw [idleIter, peek_buttons_dev, runTicks]
    simp only [ih]

theorem idleIter_seed (s : Fg) (inp : Nat → Nat) (j : Nat) :
    (idleIter s inp j).random_seed = s.random_seed := by
  induction j with
  | zero => rfl
  | succ j ih =>
    rw [idleIter]
    exact ih

/-- While the polls report nothing and the countdown is running, the loop of
`read_buttons` just iterates. -/
theorem loop_skip (s : Fg) (inp : Nat → Nat) (j : Nat) (hj : j ≤ 14999)
    (hz : ∀ i, i < j → pollAt s inp i = 0) (fuel : Nat) :
    read_buttons_loop (fuel + j) s inp 0 15000 =
      read_buttons_loop fuel (idleIter s inp j) inp j (15000 - j) := by
  induction j generalizing fuel with
  | zero => rfl
  | succ j ih =>
    have h1 := ih (by omega) (fun i hi => hz i (by omega)) (fuel + 1)
    rw [show fuel + (j + 1) = fuel + 1 + j by omega, h1, read_buttons_loop]
    have hc : (15000 - j + 65535) % 65536 = 15000 - (j + 1) := by omega
    have hne : ¬ (15000 - (j + 1) = 0) := by omega
    have hp := hz j (by omega)
    rw [pollAt] at hp
    simp only [hc, hne, if_false, hp, if_true]
    rfl

/-- The loop leaves with a press at the first iteration whose poll is non-zero. -/
theorem loop_pressed (s : Fg) (inp : Nat → Nat) (k fuel : Nat) (hk1 : 1 ≤ k)
    (hk : k ≤ 14999) (hz : ∀ i, i + 1 < k → pollAt s inp i = 0)
    (hnz : pollAt s inp (k - 1) ≠ 0) (hf : k ≤ fuel) :
    read_buttons_loop fuel s inp 0 15000 =
      some (LoopEnd.pressed (idleIter s inp k) (15000 - k) k) := by
  obtain ⟨j, rfl⟩ : ∃ j, k = j + 1 := ⟨k - 1, by omega⟩
  obtain ⟨f, rfl⟩ : ∃ f, fuel = f + 1 + j := ⟨fuel - (j + 1), by omega⟩
  rw [loop_skip s inp j (by omega) (fun i hi => hz i (by omega)) (f + 1), read_buttons_loop]
  have hc : (15000 - j + 65535) % 65536 = 15000 - (j + 1) := by omega
  have hne : ¬ (15000 - (j + 1) = 0) := by omega
  have hp : pollAt s inp j ≠ 0 := by simpa using hnz
  rw [pollAt] at hp
  simp only [hc, hne, if_false, hp]
  rfl

/-- With no edge in the first 14999 polls the loop enters the power-down path at the
15000th tick. -/
theorem loop_powered (s : Fg) (inp : Nat → Nat) (fuel : Nat)
    (hz : ∀ i, i < 14999 → pollAt s inp i = 0) (hf : 15000 ≤ fuel) :
    read_buttons_loop fuel s inp 0 15000 =
      some (LoopEnd.poweredDown
        (power_down { idleIter s inp 14999 with
          dev := ISR (idleIter s inp 14999).dev (inp 14999) }) 15000) := by
  obtain ⟨f, rfl⟩ : ∃ f, fuel = f + 1 + 14999 := ⟨fuel - 15000, by omega⟩
  rw [loop_skip s inp 14999 (by omega) hz (f + 1), read_buttons_loop]
  rfl

/-- With less fuel than idle iterations the loop is still running. -/
theorem loop_running (s : Fg) (inp : Nat → Nat) (fuel : Nat) (hf : fuel ≤ 14999)
    (hz : ∀ i, i < fuel → pollAt s inp i = 0) :
    read_buttons_loop fuel s inp 0 15000 = none := by
  have h := loop_skip s inp fuel hf hz 0
  rw [Nat.zero_add] at h
  rw [h]
  rfl

/-- From a stage in `[0,18]`, `sleep(n)` with `n` in `[1,255]` returns after exactly
`18*(n-1) + (19 - stage)` ticks. -/
theorem sleep_returns (st : Dev) (inp : Nat → Nat) (n fuel : Nat)
    (hn1 : 1 ≤ n) (hn : n ≤ 255) (h18 : st.refresh_stage ≤ 18)
    (hf : 18 * (n - 1) + (19 - st.refresh_stage) ≤ fuel) :
    sleep fuel st n inp =
      some (runTicks { st with frames_count := n % 256 } inp
              (18 * (n - 1) + (19 - st.refresh_stage)),
            18 * (n - 1) + (19 - st.refresh_stage)) := by
  refine sleepLoop_returns _ inp _ (fun j hj _ => ?_) ?_ fuel 0 (by omega) (by omega)
  · rw [sleep_countdown st inp n j hn h18 (by omega)]
    omega
  · rw [sleep_countdown st inp n _ hn h18 (by omega)]
    omega

theorem runTicks_stage_le (st : Dev) (inp : Nat → Nat) (h18 : st.refresh_stage ≤ 18)
    (k : Nat) : (runTicks st inp k).refresh_stage ≤ 18 := by
  cases k with
  | zero => exact h18
  | succ k =>
    rw [runTicks_stage st inp h18 k]
    have : (st.refresh_stage + k) % 18 < 18 := Nat.mod_lt _ (by decide)
    omega

/-- What `read_buttons` returns when the first non-zero poll is the one of
iteration `k`. -/
theorem read_buttons_pressed (s : Fg) (inp : Nat → Nat) (k fuel : Nat) (hk1 : 1 ≤ k)
    (hk : k ≤ 14999) (hz : ∀ i, i + 1 < k → pollAt s inp i = 0)
    (hnz : pollAt s inp (k - 1) ≠ 0) (h18 : s.dev.refresh_stage ≤ 18)
    (hf : k + 36 ≤ fuel) :
    read_buttons fuel s inp =
      some (Outcome.returned
        { idleIter s inp k with
          random_seed := ((idleIter s inp k).random_seed + (15000 - k)) % 65536,
          dev := runTicks { (idleIter s inp k).dev with frames_count := 2 % 256 }
            (fun i => inp (k + i)) (18 * (2 - 1) + (19 - (idleIter s inp k).dev.refresh_stage)) }
        (k + (18 * (2 - 1) + (19 - (idleIter s inp k).dev.refresh_stage)))) := by
  have hst : (idleIter s inp k).dev.refresh_stage ≤ 18 := by
    rw [idleIter_dev]
    exact runTicks_stage_le _ inp h18 k
  unfold read_buttons
  rw [loop_pressed s inp k fuel hk1 hk hz hnz (by omega)]
  simp only
  rw [sleep_returns _ _ 2 fuel (by decide) (by decide) hst (by omega)]

/-- C11: if the first non-zero poll of a call of `read_buttons` is the one of
iteration `k`, `1 ≤ k ≤ 14999` (one iteration = one timer tick followed by one poll),
then, given enough fuel and a stage in `[0,18]`, the call returns, after the `sleep(2)`
settle, with `random_seed = (old random_seed + (15000 - k)) mod 65536` and with the
`buttons` bitmap produced by that `k`-th poll. -/
theorem C11_read_buttons_reseed (s : Fg) (inp : Nat → Nat) (k fuel : Nat) (hk1 : 1 ≤ k)
    (hk : k ≤ 14999) (hz : ∀ i, i + 1 < k → pollAt s inp i = 0)
    (hnz : pollAt s inp (k - 1) ≠ 0) (h18 : s.dev.refresh_stage ≤ 18)
    (hf : k + 36 ≤ fuel) :
    ∃ s1 n, read_buttons fuel s inp = some (Outcome.returned s1 n) ∧
      s1.random_seed = (s.random_seed + (15000 - k)) % 65536 ∧
      s1.buttons = (idleIter s inp k).buttons ∧
      s1.buttons = (peek_buttons { idleIter s inp (k - 1) with
        dev := ISR (idleIter s inp (k - 1)).dev (inp (k - 1)) }).2.buttons ∧
      n = k + (18 + (19 - (runTicks s.dev inp k).refresh_stage)) := by
  refine ⟨_, _, read_buttons_pressed s inp k fuel hk1 hk hz hnz h18 hf, ?_, rfl, ?_, ?_⟩
  · simp only [idleIter_seed]
  · obtain ⟨j, rfl⟩ : ∃ j, k = j + 1 := ⟨k - 1, by omega⟩
    rfl
  · rw [idleIter_dev]

theorem C11_read_buttons_reseed_witness :
    (1 ≤ 12 ∧ 12 ≤ 14999 ∧ (∀ i, i < 11 → pollAt idleFg pins i = 0) ∧
      pollAt idleFg pins (12 - 1) ≠ 0 ∧ idleFg.dev.refresh_stage ≤ 18 ∧ 12 + 36 ≤ 50) ∧
    ∃ s1 n, read_buttons 50 idleFg pins = some (Outcome.returned s1 n) ∧
      s1.random_seed = (idleFg.random_seed + (15000 - 12)) % 65536 ∧
      s1.buttons = (idleIter idleFg pins 12).buttons ∧
      s1.buttons = (peek_buttons { idleIter idleFg pins (12 - 1) with
        dev := ISR (idleIter idleFg pins (12 - 1)).dev (pins (12 - 1)) }).2.buttons ∧
      n = 12 + (18 + (19 - (runTicks idleFg.dev pins 12).refresh_stage)) :=
  ⟨⟨by decide, by decide, by decide, by decide, by decide, by decide⟩,
   C11_read_buttons_reseed idleFg pins 12 50 (by decide) (by decide)
     (fun i hi => (by decide : ∀ i, i < 11 → pollAt idleFg pins i = 0) i (by omega))
     (by decide) (by decide) (by decide)⟩

/-- If some poll among the first 14999 reports an edge, there is a first one. -/
theorem first_edge (s : Fg) (inp : Nat → Nat)
    (h : ∃ i, i < 14999 ∧ pollAt s inp i ≠ 0) :
    ∃ k, 1 ≤ k ∧ k ≤ 14999 ∧ (∀ i, i + 1 < k → pollAt s inp i = 0) ∧
      pollAt s inp (k - 1) ≠ 0 := by
  classical
  obtain ⟨hlt, hne⟩ := Nat.find_spec h
  refine ⟨Nat.find h + 1, by omega, by omega, ?_, by simpa using hne⟩
  intro i hi
  by_contra hc
  exact Nat.find_min h (show i < Nat.find h by omega) ⟨by omega, hc⟩

/-- A call of `read_buttons` that ends in power-down does so at the 15000th tick,
after 14999 polls without an edge, and leaves the power-down register values. -/
theorem read_buttons_restarted (s : Fg) (inp : Nat → Nat) (fuel : Nat) (s1 : Fg) (t : Nat)
    (h : read_buttons fuel s inp = some (Outcome.restarted s1 t)) :
    t = 15000 ∧ (∀ i, i < 14999 → pollAt s inp i = 0) ∧
    s1 = power_down { idleIter s inp 14999 with
      dev := ISR (idleIter s inp 14999).dev (inp 14999) } := by
  by_cases hall : ∀ i, i < 14999 → pollAt s inp i = 0
  · by_cases hf : 15000 ≤ fuel
    · unfold read_buttons at h
      rw [loop_powered s inp fuel hall hf] at h
      simp only [Option.some.injEq, Outcome.restarted.injEq] at h
      exact ⟨h.2.symm, hall, h.1.symm⟩
    · unfold read_buttons at h
      rw [loop_running s inp fuel (by omega) (fun i hi => hall i (by omega))] at h
      simp at h
  · exfalso
    have hex : ∃ i, i < 14999 ∧ pollAt s inp i ≠ 0 := by
      by_contra hc
      apply hall
      intro i hi
      by_contra hne
      exact hc ⟨i, hi, hne⟩
    obtain ⟨k, hk1, hk, hz, hnz⟩ := first_edge s inp hex
    by_cases hf : k ≤ fuel
    · unfold read_buttons at h
      rw [loop_pressed s inp k fuel hk1 hk hz hnz hf] at h
      simp only at h
      split at h <;> simp at h
    · unfold read_buttons at h
      rw [loop_running s inp fuel (by omega) (fun i hi => hz i (by omega))] at h
      simp at h

/-- C12: within one call of `read_buttons` (from a stage in `[0,18]`, with enough fuel)
the power-down sequence is executed if and only if none of the first 14999 per-tick
polls reported an edge; whenever it is executed, with any fuel, it is at the 15000th
tick of the call, it leaves `TCCR1B = 0`, `MCUCR = 0x30`, `PORTA = PORTD = 0`,
`PORTB = 0x38`, `GIMSK = 0x20`, `PCMSK = 0x38`, and no earlier poll reported an edge;
and if one of the first 14999 polls reports an edge the call returns without entering
power-down. -/
theorem C12_power_down_on_timeout (s : Fg) (inp : Nat → Nat) (fuel : Nat)
    (h18 : s.dev.refresh_stage ≤ 18) (hf : 15036 ≤ fuel) :
    ((∃ s1 t, read_buttons fuel s inp = some (Outcome.restarted s1 t)) ↔
      (∀ i, i < 14999 → pollAt s inp i = 0)) ∧
    (∀ fuel1 s1 t, read_buttons fuel1 s inp = some (Outcome.restarted s1 t) →
      t = 15000 ∧ (∀ i, i < 14999 → pollAt s inp i = 0) ∧
      s1.TCCR1B = 0 ∧ s1.MCUCR = 0x30 ∧ s1.dev.PORTA = 0 ∧ s1.dev.PORTD = 0 ∧
      s1.dev.PORTB = 0x38 ∧ s1.GIMSK = 0x20 ∧ s1.PCMSK = 0x38) ∧
    ((∃ i, i < 14999 ∧ pollAt s inp i ≠ 0) →
      ∃ s1 n, read_buttons fuel s inp = some (Outcome.returned s1 n)) := by
  refine ⟨⟨?_, ?_⟩, ?_, ?_⟩
  · rintro ⟨s1, t, h⟩
    exact (read_buttons_restarted s inp fuel s1 t h).2.1
  · intro hall
    refine ⟨power_down { idleIter s inp 14999 with
      dev := ISR (idleIter s inp 14999).dev (inp 14999) }, 15000, ?_⟩
    unfold read_buttons
    rw [loop_powered s inp fuel hall (by omega)]
  · intro fuel1 s1 t h
    obtain ⟨ht, hall, hs1⟩ := read_buttons_restarted s inp fuel1 s1 t h
    subst hs1
    exact ⟨ht, hall, rfl, rfl, rfl, rfl, rfl, rfl, rfl⟩
  · intro hex
    obtain ⟨k, hk1, hk, hz, hnz⟩ := first_edge s inp hex
    exact ⟨_, _, read_buttons_pressed s inp k fuel hk1 hk hz hnz h18 (by omega)⟩

/-- With no button ever pressed, every poll of the idle example reports nothing. -/
theorem noPress_idle (j : Nat) :
    (idleIter idleFg noPress j).prev_buttons = ⟨7, 7, 7⟩ ∧
    (idleIter idleFg noPress j).dev.new_buttons = ⟨7, 7, 7⟩ ∧
    pollAt idleFg noPress j = 0 := by
  have step : ∀ s : Fg, s.prev_buttons = ⟨7, 7, 7⟩ → s.dev.new_buttons = ⟨7, 7, 7⟩ →
      (peek_buttons { s with dev := ISR s.dev 0x38 }).2.prev_buttons = ⟨7, 7, 7⟩ ∧
      (peek_buttons { s with dev := ISR s.dev 0x38 }).2.dev.new_buttons = ⟨7, 7, 7⟩ ∧
      (peek_buttons { s with dev := ISR s.dev 0x38 }).1 = 0 := by
    intro s hp hn
    have g0 := ISR_new_buttons_get s.dev 0x38 0 (by decide)
    have g1 := ISR_new_buttons_get s.dev 0x38 1 (by decide)
    have g2 := ISR_new_buttons_get s.dev 0x38 2 (by decide)
    rw [hn] at g0 g1 g2
    have h0 : (ISR s.dev 0x38).new_buttons.r0 = 7 := by
      have : (ISR s.dev 0x38).new_buttons.get 0 = 7 := by rw [g0]; split <;> rfl
      exact this
    have h1 : (ISR s.dev 0x38).new_buttons.r1 = 7 := by
      have : (ISR s.dev 0x38).new_buttons.get 1 = 7 := by rw [g1]; split <;> rfl
      exact this
    have h2 : (ISR s.dev 0x38).new_buttons.r2 = 7 := by
      have : (ISR s.dev 0x38).new_buttons.get 2 = 7 := by rw [g2]; split <;> rfl
      exact this
    have hnb : (ISR s.dev 0x38).new_buttons = ⟨7, 7, 7⟩ := by
      cases hx : (ISR s.dev 0x38).new_buttons with
      | mk a b c =>
        rw [hx] at h0 h1 h2
        simp only at h0 h1 h2
        rw [h0, h1, h2]
    refine ⟨?_, hnb, ?_⟩
    · show (⟨(ISR s.dev 0x38).new_buttons.r0 &&& 7, (ISR s.dev 0x38).new_buttons.r1 &&& 7,
        (ISR s.dev 0x38).new_buttons.r2 &&& 7⟩ : Rows) = _
      rw [h0, h1, h2]
      rfl
    · show (read_btn_row (ISR s.dev 0x38).new_buttons.r0 s.prev_buttons.r0).1 |||
        (read_btn_row (ISR s.dev 0x38).new_buttons.r1 s.prev_buttons.r1).1 |||
        (read_btn_row (ISR s.dev 0x38).new_buttons.r2 s.prev_buttons.r2).1 = 0
      rw [h0, h1, h2, hp]
      rfl
  induction j with
  | zero => exact ⟨rfl, rfl, (step idleFg rfl rfl).2.2⟩
  | succ j ih =>
    have h1 := step (idleIter idleFg noPress j) ih.1 ih.2.1
    exact ⟨h1.1, h1.2.1, (step (idleIter idleFg noPress (j + 1)) h1.1 h1.2.1).2.2⟩

theorem C12_power_down_on_timeout_witness :
    (idleFg.dev.refresh_stage ≤ 18 ∧ 15036 ≤ 20000) ∧
    ((∃ s1 t, read_buttons 20000 idleFg noPress = some (Outcome.restarted s1 t)) ∧
      ∀ i, i < 14999 → pollAt idleFg noPress i = 0) ∧
    ((∃ i, i < 14999 ∧ pollAt idleFg pins i ≠ 0) ∧
      ∃ s1 n, read_buttons 20000 idleFg pins = some (Outcome.returned s1 n)) :=
  ⟨by decide,
   ⟨(C12_power_down_on_timeout idleFg noPress 20000 (by decide) (by decide)).1.2
      (fun i _ => (noPress_idle i).2.2), fun i _ => (noPress_idle i).2.2⟩,
   ⟨⟨11, by decide, by decide⟩,
    (C12_power_down_on_timeout idleFg pins 20000 (by decide) (by decide)).2.2
      ⟨11, by decide, by decide⟩⟩⟩

/-! ## What the handler drives onto the ports -/

theorem byte_ext (a b : Nat) (ha : a < 256) (hb : b < 256)
    (h : ∀ i, i < 8 → a.testBit i = b.testBit i) : a = b := by
  apply Nat.eq_of_testBit_eq
  intro i
  by_cases hi : i < 8
  · exact h i hi
  · have h2 : (256 : Nat) ≤ 2 ^ i :=
      calc (256 : Nat) = 2 ^ 8 := rfl
        _ ≤ 2 ^ i := Nat.pow_le_pow_right (by decide) (by omega)
    rw [Nat.testBit_lt_two_pow (lt_of_lt_of_le ha h2),
      Nat.testBit_lt_two_pow (lt_of_lt_of_le hb h2)]

theorem bitAt_le (x i : Nat) : bitAt x i ≤ 1 := by
  unfold bitAt
  rw [Nat.and_one_is_mod]
  omega

theorem or_bit_lt (c x i j : Nat) (hc : c < 256) (hj : j ≤ 7) :
    c ||| (bitAt x i <<< j) < 256 := by
  have h1 := bitAt_le x i
  have h2 : bitAt x i <<< j < 2 ^ 8 := by
    rw [Nat.shiftLeft_eq]
    interval_cases j <;> omega
  exact Nat.or_lt_two_pow (show c < 2 ^ 8 from hc) h2

/-- Stages 1, 4, 7: `PORTD` carries bit 2 of the row on line 1. -/
theorem drive_red0 (x : Nat) : ((x >>> 1) ||| 0xfd) % 256 = 0xfd ||| (bitAt x 2 <<< 1) := by
  apply byte_ext _ _ (Nat.mod_lt _ (by decide)) (or_bit_lt _ _ _ _ (by decide) (by decide))
  intro i hi
  have h256 : (256 : Nat) = 2 ^ 8 := rfl
  rw [h256, Nat.testBit_mod_two_pow, Nat.testBit_lor, Nat.testBit_shiftRight, Nat.testBit_lor,
    Nat.testBit_shiftLeft, bitAt, Nat.testBit_land, Nat.testBit_shiftRight]
  interval_cases i <;> simp [Nat.testBit]

/-- Stages 2, 5, 8: `PORTA` carries bit 1 of the row on line 0. -/
theorem drive_red1 (x : Nat) : ((x >>> 1) ||| 0xfe) % 256 = 0xfe ||| (bitAt x 1 <<< 0) := by
  apply byte_ext _ _ (Nat.mod_lt _ (by decide)) (or_bit_lt _ _ _ _ (by decide) (by decide))
  intro i hi
  have h256 : (256 : Nat) = 2 ^ 8 := rfl
  rw [h256, Nat.testBit_mod_two_pow, Nat.testBit_lor, Nat.testBit_shiftRight, Nat.testBit_lor,
    Nat.testBit_shiftLeft, bitAt, Nat.testBit_land, Nat.testBit_shiftRight]
  interval_cases i <;> simp [Nat.testBit]

/-- Stages 3, 6, 9: `PORTD` carries bit 0 of the row on line 3. -/
theorem drive_red2 (x : Nat) : ((x <<< 3) ||| 0xf7) % 256 = 0xf7 ||| (bitAt x 0 <<< 3) := by
  apply byte_ext _ _ (Nat.mod_lt _ (by decide)) (or_bit_lt _ _ _ _ (by decide) (by decide))
  intro i hi
  have h256 : (256 : Nat) = 2 ^ 8 := rfl
  rw [h256, Nat.testBit_mod_two_pow, Nat.testBit_lor, Nat.testBit_shiftLeft, Nat.testBit_lor,
    Nat.testBit_shiftLeft, bitAt, Nat.testBit_land, Nat.testBit_shiftRight]
  interval_cases i <;> simp [Nat.testBit]

/-- Stages 10, 13, 16: `PORTD` carries bit 2 of the row on line 0. -/
theorem drive_green0 (x : Nat) : ((x >>> 2) ||| 0xfe) % 256 = 0xfe ||| (bitAt x 2 <<< 0) := by
  apply byte_ext _ _ (Nat.mod_lt _ (by decide)) (or_bit_lt _ _ _ _ (by decide) (by decide))
  intro i hi
  have h256 : (256 : Nat) = 2 ^ 8 := rfl
  rw [h256, Nat.testBit_mod_two_pow, Nat.testBit_lor, Nat.testBit_shiftRight, Nat.testBit_lor,
    Nat.testBit_shiftLeft, bitAt, Nat.testBit_land, Nat.testBit_shiftRight]
  interval_cases i <;> simp [Nat.testBit]

/-- Stages 11, 14, 17: `PORTA` carries bit 1 of the row on line 1. -/
theorem drive_green1 (x : Nat) : (x ||| 0xfd) % 256 = 0xfd ||| (bitAt x 1 <<< 1) := by
  apply byte_ext _ _ (Nat.mod_lt _ (by decide)) (or_bit_lt _ _ _ _ (by decide) (by decide))
  intro i hi
  have h256 : (256 : Nat) = 2 ^ 8 := rfl
  rw [h256, Nat.testBit_mod_two_pow, Nat.testBit_lor, Nat.testBit_lor,
    Nat.testBit_shiftLeft, bitAt, Nat.testBit_land, Nat.testBit_shiftRight]
  interval_cases i <;> simp [Nat.testBit]

/-- Stages 12, 15, 18: `PORTD` carries bit 0 of the row on line 2. -/
theorem drive_green2 (x : Nat) : ((x <<< 2) ||| 0xfb) % 256 = 0xfb ||| (bitAt x 0 <<< 2) := by
  apply byte_ext _ _ (Nat.mod_lt _ (by decide)) (or_bit_lt _ _ _ _ (by decide) (by decide))
  intro i hi
  have h256 : (256 : Nat) = 2 ^ 8 := rfl
  rw [h256, Nat.testBit_mod_two_pow, Nat.testBit_lor, Nat.testBit_shiftLeft, Nat.testBit_lor,
    Nat.testBit_shiftLeft, bitAt, Nat.testBit_land, Nat.testBit_shiftRight]
  interval_cases i <;> simp [Nat.testBit]

/-- The three low bits of a byte are determined by the byte masked with 7. -/
theorem bitAt_congr (x y i : Nat) (h : x &&& 7 = y &&& 7) (hi : i < 3) :
    bitAt x i = bitAt y i := by
  rw [and_seven, and_seven] at h
  unfold bitAt
  rw [Nat.and_one_is_mod, Nat.and_one_is_mod, Nat.shiftRight_eq_div_pow,
    Nat.shiftRight_eq_div_pow]
  interval_cases i <;> simp <;> omega

/-- The final port values of a tick are those left by its port writes. -/
theorem ISR_ports (st : Dev) (p : Nat) :
    (ISR st p).PORTA = (applyWrites (portWrites st) st).PORTA ∧
    (ISR st p).PORTB = (applyWrites (portWrites st) st).PORTB ∧
    (ISR st p).PORTD = (applyWrites (portWrites st) st).PORTD := by
  unfold ISR portWrites
  simp only
  split <;> simp [applyWrites, case1, red_wrap, green_wrap]

/-- Each byte the handler puts on a port depends on the row byte only through its
three low bits. -/
theorem drive_congr (x y : Nat) (h : x &&& 7 = y &&& 7) :
    ((x >>> 1) ||| 0xfd) % 256 = ((y >>> 1) ||| 0xfd) % 256 ∧
    ((x >>> 1) ||| 0xfe) % 256 = ((y >>> 1) ||| 0xfe) % 256 ∧
    ((x <<< 3) ||| 0xf7) % 256 = ((y <<< 3) ||| 0xf7) % 256 ∧
    ((x >>> 2) ||| 0xfe) % 256 = ((y >>> 2) ||| 0xfe) % 256 ∧
    (x ||| 0xfd) % 256 = (y ||| 0xfd) % 256 ∧
    ((x <<< 2) ||| 0xfb) % 256 = ((y <<< 2) ||| 0xfb) % 256 := by
  have b0 := bitAt_congr x y 0 h (by decide)
  have b1 := bitAt_congr x y 1 h (by decide)
  have b2 := bitAt_congr x y 2 h (by decide)
  refine ⟨?_, ?_, ?_, ?_, ?_, ?_⟩
  · rw [drive_red0, drive_red0, b2]
  · rw [drive_red1, drive_red1, b1]
  · rw [drive_red2, drive_red2, b0]
  · rw [drive_green0, drive_green0, b2]
  · rw [drive_green1, drive_green1, b1]
  · rw [drive_green2, drive_green2, b0]

/-- One tick from two states that agree up to the planes and the high bits of the
latched row, with planes that agree on the three low bits of every row: the same port
writes, and the states agree again. -/
theorem ISR_sameDrive (a b : Dev) (p : Nat) (h : sameDrive a b)
    (hr : sameLow a.reds b.reds) (hg : sameLow a.greens b.greens) :
    sameDrive (ISR a p) (ISR b p) ∧ portWrites a = portWrites b := by
  obtain ⟨hs, hnb, hfc, hA, hB, hD, hrow⟩ := h
  obtain ⟨hr0, hr1, hr2⟩ := hr
  obtain ⟨hg0, hg1, hg2⟩ := hg
  obtain ⟨-, w1, w2, -, w4, w5⟩ := drive_congr _ _ hrow
  have r0 := (drive_congr _ _ hr0).1
  have r1 := (drive_congr _ _ hr1).1
  have r2 := (drive_congr _ _ hr2).1
  have g0 := (drive_congr _ _ hg0).2.2.2.1
  have g1 := (drive_congr _ _ hg1).2.2.2.1
  have g2 := (drive_congr _ _ hg2).2.2.2.1
  unfold ISR portWrites sameDrive
  simp only [← hs]
  split <;>
    simp [case1, red_wrap, green_wrap, hnb, hfc, hA, hB, hD, hrow, hr0, hr1, hr2, hg0, hg1,
      hg2, w1, w2, w4, w5, r0, r1, r2, g0, g1, g2]

/-- Agreement is kept along two runs whose planes agree on the three low bits of every
row at every tick. -/
theorem runPlanes_sameDrive (a b : Dev) (pa pb : Nat → Rows × Rows) (inp : Nat → Nat)
    (hab : sameDrive a b)
    (hp : ∀ k, sameLow (pa k).1 (pb k).1 ∧ sameLow (pa k).2 (pb k).2) (k : Nat) :
    sameDrive (runPlanes a pa inp k) (runPlanes b pb inp k) := by
  induction k with
  | zero => exact hab
  | succ k ih =>
    exact (ISR_sameDrive (setPlanes (runPlanes a pa inp k) (pa k))
      (setPlanes (runPlanes b pb inp k) (pb k)) (inp k) ih (hp k).1 (hp k).2).1

/-- C14: the refresh logic never inspects bits 3..7 of a colour-plane row.  For two runs
of the timer handler from states that agree on everything but the planes and the high
bits of the latched row (in particular from the same state), with the same input
samples and with `reds`/`greens` that agree on the three low bits of every row at every
tick: after every tick `refresh_stage`, `new_buttons`, `frames_count`, `PORTA`, `PORTB`
and `PORTD` are identical, the list of port writes of every tick is identical, and the
latched row bytes agree on their three low bits. -/
theorem C14_high_bits_ignored (a b : Dev) (pa pb : Nat → Rows × Rows) (inp : Nat → Nat)
    (hab : sameDrive a b)
    (hp : ∀ k, sameLow (pa k).1 (pb k).1 ∧ sameLow (pa k).2 (pb k).2) (k : Nat) :
    (runPlanes a pa inp k).refresh_stage = (runPlanes b pb inp k).refresh_stage ∧
    (runPlanes a pa inp k).new_buttons = (runPlanes b pb inp k).new_buttons ∧
    (runPlanes a pa inp k).frames_count = (runPlanes b pb inp k).frames_count ∧
    (runPlanes a pa inp k).PORTA = (runPlanes b pb inp k).PORTA ∧
    (runPlanes a pa inp k).PORTB = (runPlanes b pb inp k).PORTB ∧
    (runPlanes a pa inp k).PORTD = (runPlanes b pb inp k).PORTD ∧
    (runPlanes a pa inp k).refresh_row &&& 7 = (runPlanes b pb inp k).refresh_row &&& 7 ∧
    portWrites (setPlanes (runPlanes a pa inp k) (pa k)) =
      portWrites (setPlanes (runPlanes b pb inp k) (pb k)) := by
  have h := runPlanes_sameDrive a b pa pb inp hab hp k
  have hw := (ISR_sameDrive (setPlanes (runPlanes a pa inp k) (pa k))
    (setPlanes (runPlanes b pb inp k) (pb k)) (inp k) h (hp k).1 (hp k).2).2
  obtain ⟨h1, h2, h3, h4, h5, h6, h7⟩ := h
  exact ⟨h1, h2, h3, h4, h5, h6, h7, hw⟩

theorem planes_sameLow (k : Nat) :
    sameLow (planesA k).1 (planesB k).1 ∧ sameLow (planesA k).2 (planesB k).2 := by
  refine ⟨⟨?_, ?_, ?_⟩, ?_, ?_, ?_⟩
  · show 6 &&& 7 = 0xfe &&& 7
    decide
  · show 5 &&& 7 = 0x85 &&& 7
    decide
  · show 3 &&& 7 = (0x0b + 8 * (k % 31)) &&& 7
    rw [and_seven, and_seven]
    omega
  · show 7 &&& 7 = 0x0f &&& 7
    decide
  · show 7 &&& 7 = 0x47 &&& 7
    decide
  · show 7 &&& 7 = 0xff &&& 7
    decide

theorem C14_high_bits_ignored_witness :
    (sameDrive midFrame midFrame ∧
      ∀ k, sameLow (planesA k).1 (planesB k).1 ∧ sameLow (planesA k).2 (planesB k).2) ∧
    (runPlanes midFrame planesA pins 40).PORTA = (runPlanes midFrame planesB pins 40).PORTA ∧
    (runPlanes midFrame planesA pins 40).PORTB = (runPlanes midFrame planesB pins 40).PORTB ∧
    (runPlanes midFrame planesA pins 40).PORTD = (runPlanes midFrame planesB pins 40).PORTD :=
  ⟨⟨⟨rfl, rfl, rfl, rfl, rfl, rfl, rfl⟩, planes_sameLow⟩,
   (C14_high_bits_ignored midFrame midFrame planesA planesB pins
      ⟨rfl, rfl, rfl, rfl, rfl, rfl, rfl⟩ planes_sameLow 40).2.2.2.1,
   (C14_high_bits_ignored midFrame midFrame planesA planesB pins
      ⟨rfl, rfl, rfl, rfl, rfl, rfl, rfl⟩ planes_sameLow 40).2.2.2.2.1,
   (C14_high_bits_ignored midFrame midFrame planesA planesB pins
      ⟨rfl, rfl, rfl, rfl, rfl, rfl, rfl⟩ planes_sameLow 40).2.2.2.2.2.1⟩

/-! ## The stage counter from power-on -/

/-- A dispatch value that is no `case` label falls through the `switch`: the tick only
increments the stage and writes no port. -/
theorem ISR_no_label (st : Dev) (p : Nat)
    (h : (st.refresh_stage + 1) % 256 ∉ switchLabels) :
    ISR st p = { st with refresh_stage := (st.refresh_stage + 1) % 256 } ∧
    portWrites st = [] := by
  unfold ISR portWrites
  simp only
  constructor <;> split <;> simp_all [switchLabels]

/-- C15: starting from the power-on `refresh_stage = 0`, after `n ≥ 1` timer ticks
`refresh_stage = ((n - 1) mod 18) + 1`; hence after every tick the stage is in `[1,18]`
and is never 19, each tick maps a stage `s < 18` to `s + 1` and 18 to 1, and the value
the `switch` dispatches on is, at every tick, exactly one of its `case` labels. -/
theorem C15_stage_range (st : Dev) (inp : Nat → Nat) (h0 : st.refresh_stage = 0) :
    (∀ n, 1 ≤ n → (runTicks st inp n).refresh_stage = (n - 1) % 18 + 1) ∧
    (∀ n, 1 ≤ n → 1 ≤ (runTicks st inp n).refresh_stage ∧
      (runTicks st inp n).refresh_stage ≤ 18 ∧ (runTicks st inp n).refresh_stage ≠ 19) ∧
    (∀ n, (runTicks st inp (n + 1)).refresh_stage =
      if (runTicks st inp n).refresh_stage < 18 then (runTicks st inp n).refresh_stage + 1
      else 1) ∧
    (∀ (a : Dev) (p : Nat), (a.refresh_stage < 18 → (ISR a p).refresh_stage = a.refresh_stage + 1) ∧
      (a.refresh_stage = 18 → (ISR a p).refresh_stage = 1) ∧ (ISR a p).refresh_stage ≠ 19) ∧
    (∀ n, switchLabels.count (((runTicks st inp n).refresh_stage + 1) % 256) = 1) ∧
    switchLabels.Nodup := by
  have hst : ∀ n, 1 ≤ n → (runTicks st inp n).refresh_stage = (n - 1) % 18 + 1 := by
    intro n hn
    obtain ⟨k, rfl⟩ : ∃ k, n = k + 1 := ⟨n - 1, by omega⟩
    rw [runTicks_stage st inp (by omega) k, h0]
    simp
  have hle : ∀ n, (runTicks st inp n).refresh_stage ≤ 18 :=
    fun n => runTicks_stage_le st inp (by omega) n
  refine ⟨hst, ?_, ?_, ?_, ?_, by decide⟩
  · intro n hn
    rw [hst n hn]
    have : (n - 1) % 18 < 18 := Nat.mod_lt _ (by decide)
    omega
  · intro n
    rw [runTicks, ISR_stage, nextStage]
    have := hle n
    split <;> split <;> omega
  · intro a p
    rw [ISR_stage, nextStage]
    refine ⟨fun h => ?_, fun h => ?_, ?_⟩
    · split <;> omega
    · split <;> omega
    · split <;> omega
  · intro n
    have := hle n
    generalize (runTicks st inp n).refresh_stage = x at this
    interval_cases x <;> decide

theorem C15_stage_range_witness :
    powerOn.refresh_stage = 0 ∧
    (∀ n, 1 ≤ n → (runTicks powerOn pins n).refresh_stage = (n - 1) % 18 + 1) ∧
    (∀ n, switchLabels.count (((runTicks powerOn pins n).refresh_stage + 1) % 256) = 1) :=
  ⟨rfl, (C15_stage_range powerOn pins rfl).1, (C15_stage_range powerOn pins rfl).2.2.2.2.1⟩

/-! ## What packing keeps -/

theorem testBit_one_pos (i : Nat) (hi : 1 ≤ i) : Nat.testBit 1 i = false := by
  apply Nat.testBit_lt_two_pow
  calc 1 < 2 ^ 1 := by decide
    _ ≤ 2 ^ i := Nat.pow_le_pow_right (by decide) hi

/-- Flipping bit 0 does not change bits 1 and 2. -/
theorem xor_one_and_six (x : Nat) : (x ^^^ 1) &&& 6 = x &&& 6 := by
  apply Nat.eq_of_testBit_eq
  intro i
  rw [Nat.testBit_land, Nat.testBit_land, Nat.testBit_xor]
  by_cases hi : i = 0
  · subst hi
    simp [Nat.testBit]
  · rw [testBit_one_pos i (by omega)]
    simp

theorem and_seven_and_six (x : Nat) : (x &&& 7) &&& 6 = x &&& 6 := by
  rw [Nat.land_assoc]
  rfl

set_option maxRecDepth 100000 in
theorem or_bit_and_six : ∀ x, x < 8 → ∀ b, b < 2 → (x &&& 6 ||| b) &&& 6 = x &&& 6 := by
  decide

/-- The bits 1 and 2 of row 2 of an unpacked frame come from the packed byte alone. -/
theorem fill_frame_r2_six (v t u : Nat) :
    (fill_frame v t).r2 &&& 6 = (fill_frame v u).r2 &&& 6 := by
  have hx : (v % 256) >>> 5 < 8 := by
    rw [Nat.shiftRight_eq_div_pow]
    have : v % 256 < 256 := Nat.mod_lt _ (by decide)
    have h32 : (2 : Nat) ^ 5 = 32 := rfl
    rw [h32]
    omega
  have hb : ∀ w : Nat, (w % 256) &&& 1 < 2 := by
    intro w
    rw [Nat.and_one_is_mod]
    exact Nat.mod_lt _ (by decide)
  show ((v % 256) >>> 5 &&& 6 ||| (t % 256) &&& 1) &&& 6 =
    ((v % 256) >>> 5 &&& 6 ||| (u % 256) &&& 1) &&& 6
  rw [or_bit_and_six _ hx _ (hb t), or_bit_and_six _ hx _ (hb u)]

/-- The packed byte determines the three low bits of rows 0 and 1 and the bits 1, 2 of
row 2. -/
theorem pack_frame_inj (d e : Rows) (h : pack_frame e = pack_frame d) :
    e.r0 &&& 7 = d.r0 &&& 7 ∧ e.r1 &&& 7 = d.r1 &&& 7 ∧ e.r2 &&& 6 = d.r2 &&& 6 := by
  obtain ⟨d0, d1, d2⟩ := fill_pack_low d d.r2 rfl
  obtain ⟨e0, e1, e2⟩ := fill_pack_low e e.r2 rfl
  rw [h] at e0 e1 e2
  refine ⟨?_, ?_, ?_⟩
  · rw [← e0, ← d0]
    rfl
  · rw [← e1, ← d1]
    rfl
  · rw [← and_seven_and_six e.r2, ← e2, ← and_seven_and_six d.r2, ← d2,
      and_seven_and_six, and_seven_and_six]
    exact fill_frame_r2_six _ _ _

/-- C16: for every 3-byte bitmap `d`, `fill_frame(e, pack_frame(d), d[2])` gives
`e[i] & 7 = d[i] & 7` for `i = 0, 1, 2`.  `pack_frame(d)` depends only on the three low
bits of rows 0 and 1 and on bits 1, 2 of row 2 (so only on the three low bits of each
row), it determines all of those bits, and it drops bit 0 of `d[2]`: flipping that bit
does not change the packed byte. -/
theorem C16_pack_inverse (d : Rows) :
    sameLow (fill_frame (pack_frame d) d.r2) d ∧
    (∀ e : Rows, e.r0 &&& 7 = d.r0 &&& 7 → e.r1 &&& 7 = d.r1 &&& 7 →
      e.r2 &&& 6 = d.r2 &&& 6 → pack_frame e = pack_frame d) ∧
    (∀ e : Rows, sameLow e d → pack_frame e = pack_frame d) ∧
    (∀ e : Rows, pack_frame e = pack_frame d →
      e.r0 &&& 7 = d.r0 &&& 7 ∧ e.r1 &&& 7 = d.r1 &&& 7 ∧ e.r2 &&& 6 = d.r2 &&& 6) ∧
    pack_frame { d with r2 := d.r2 ^^^ 1 } = pack_frame d := by
  have hdep : ∀ e : Rows, e.r0 &&& 7 = d.r0 &&& 7 → e.r1 &&& 7 = d.r1 &&& 7 →
      e.r2 &&& 6 = d.r2 &&& 6 → pack_frame e = pack_frame d := by
    intro e h0 h1 h2
    unfold pack_frame
    rw [h0, h1, h2]
  refine ⟨fill_pack_low d d.r2 rfl, hdep, ?_, fun e h => pack_frame_inj d e h, ?_⟩
  · rintro e ⟨h0, h1, h2⟩
    apply hdep e h0 h1
    rw [← and_seven_and_six, h2, and_seven_and_six]
  · exact hdep _ rfl rfl (xor_one_and_six d.r2)

/-! ## One LED bit per stage -/

theorem runPlanes_add (st : Dev) (planes : Nat → Rows × Rows) (inp : Nat → Nat) (m j : Nat) :
    runPlanes st planes inp (m + j) =
      runPlanes (runPlanes st planes inp m) (fun i => planes (m + i)) (fun i => inp (m + i)) j := by
  induction j with
  | zero => rfl
  | succ j ih =>
    rw [← Nat.add_assoc, runPlanes, ih]
    rfl

theorem runPlanes_congr (st : Dev) (p1 p2 : Nat → Rows × Rows) (inp : Nat → Nat) (j : Nat)
    (h : ∀ i, i < j → p1 i = p2 i) :
    runPlanes st p1 inp j = runPlanes st p2 inp j := by
  induction j with
  | zero => rfl
  | succ j ih =>
    rw [runPlanes, runPlanes, ih (fun i hi => h i (by omega)), h j (by omega)]

theorem runPlanes_stage (st : Dev) (planes : Nat → Rows × Rows) (inp : Nat → Nat)
    (h18 : st.refresh_stage ≤ 18) (k : Nat) :
    (runPlanes st planes inp (k + 1)).refresh_stage = (st.refresh_stage + k) % 18 + 1 := by
  induction k with
  | zero =>
    rw [runPlanes, ISR_stage, nextStage]
    show (if (st.refresh_stage + 1) % 256 = 19 then 1 else (st.refresh_stage + 1) % 256) = _
    split <;> omega
  | succ k ih =>
    rw [runPlanes, ISR_stage, nextStage]
    show (if ((runPlanes st planes inp (k + 1)).refresh_stage + 1) % 256 = 19 then 1
      else ((runPlanes st planes inp (k + 1)).refresh_stage + 1) % 256) = _
    rw [ih]
    have hlt : (st.refresh_stage + k) % 18 < 18 := Nat.mod_lt _ (by decide)
    split <;> omega

/-- The tick that enters stage 18 leaves `PORTA = 3`. -/
theorem ISR_enter_last (st : Dev) (p : Nat) (h : (ISR st p).refresh_stage = 18) :
    (ISR st p).PORTA = 3 := by
  revert h
  unfold ISR
  simp only
  split <;> intro h <;> simp_all [case1, red_wrap, green_wrap]

/-- At every frame boundary reached from power-on the stage is 0 or 18 and
`PORTA = 3`. -/
theorem frame_start (st0 : Dev) (planes : Nat → Rows × Rows) (inp : Nat → Nat)
    (h0 : st0.refresh_stage = 0) (hA : st0.PORTA = 3) (n : Nat) :
    ((runPlanes st0 planes inp (18 * n)).refresh_stage = 0 ∨
      (runPlanes st0 planes inp (18 * n)).refresh_stage = 18) ∧
    (runPlanes st0 planes inp (18 * n)).PORTA = 3 := by
  cases n with
  | zero => exact ⟨Or.inl h0, hA⟩
  | succ n =>
    have hs : (runPlanes st0 planes inp (18 * n + 17 + 1)).refresh_stage = 18 := by
      rw [runPlanes_stage st0 planes inp (by omega), h0]
      omega
    have e : 18 * (n + 1) = 18 * n + 17 + 1 := by omega
    rw [e]
    refine ⟨Or.inr hs, ?_⟩
    rw [runPlanes] at hs ⊢
    exact ISR_enter_last _ _ hs

/-- The ports during one frame driven from constant planes `P`, started at a frame
boundary with `PORTA = 3`. -/
theorem frame_ports (X : Dev) (P : Rows × Rows) (inp : Nat → Nat)
    (hs : X.refresh_stage = 0 ∨ X.refresh_stage = 18) (hA : X.PORTA = 3) (k : Nat)
    (hk : k < 3) :
    ((runPlanes X (fun _ => P) inp (3 * k + 1)).refresh_stage = 3 * k + 1 ∧
      (runPlanes X (fun _ => P) inp (3 * k + 1)).PORTD = 0xfd ||| (bitAt (P.1.get k) 2 <<< 1) ∧
      (runPlanes X (fun _ => P) inp (3 * k + 1)).PORTA = 3) ∧
    ((runPlanes X (fun _ => P) inp (3 * k + 2)).refresh_stage = 3 * k + 2 ∧
      (runPlanes X (fun _ => P) inp (3 * k + 2)).PORTD = 0x0f ∧
      (runPlanes X (fun _ => P) inp (3 * k + 2)).PORTA = 0xfe ||| bitAt (P.1.get k) 1) ∧
    ((runPlanes X (fun _ => P) inp (3 * k + 3)).refresh_stage = 3 * k + 3 ∧
      (runPlanes X (fun _ => P) inp (3 * k + 3)).PORTA = 3 ∧
      (runPlanes X (fun _ => P) inp (3 * k + 3)).PORTD = 0xf7 ||| (bitAt (P.1.get k) 0 <<< 3)) ∧
    ((runPlanes X (fun _ => P) inp (3 * k + 10)).refresh_stage = 3 * k + 10 ∧
      (runPlanes X (fun _ => P) inp (3 * k + 10)).PORTD = 0xfe ||| bitAt (P.2.get k) 2 ∧
      (runPlanes X (fun _ => P) inp (3 * k + 10)).PORTA = 3) ∧
    ((runPlanes X (fun _ => P) inp (3 * k + 11)).refresh_stage = 3 * k + 11 ∧
      (runPlanes X (fun _ => P) inp (3 * k + 11)).PORTD = 0x0f ∧
      (runPlanes X (fun _ => P) inp (3 * k + 11)).PORTA = 0xfd ||| (bitAt (P.2.get k) 1 <<< 1)) ∧
    ((runPlanes X (fun _ => P) inp (3 * k + 12)).refresh_stage = 3 * k + 12 ∧
      (runPlanes X (fun _ => P) inp (3 * k + 12)).PORTA = 3 ∧
      (runPlanes X (fun _ => P) inp (3 * k + 12)).PORTD = 0xfb ||| (bitAt (P.2.get k) 0 <<< 2)) := by
  obtain ⟨stage, row, reds, greens, nb, fc, pa, pb, pd⟩ := X
  obtain ⟨R, G⟩ := P
  simp only at hs hA
  subst hA
  have e1 : ∀ x : Nat, 0xfe ||| bitAt x 1 = 0xfe ||| (bitAt x 1 <<< 0) := fun _ => rfl
  have e2 : ∀ x : Nat, 0xfe ||| bitAt x 2 = 0xfe ||| (bitAt x 2 <<< 0) := fun _ => rfl
  rw [e1, e2, ← drive_red0, ← drive_red1, ← drive_red2, ← drive_green0, ← drive_green1,
    ← drive_green2]
  rcases hs with rfl | rfl <;> interval_cases k <;>
    simp [runPlanes, setPlanes, ISR, case1, red_wrap, green_wrap, Rows.get]

/-- C17: each of the 18 stages drives exactly one LED bit.  In a run from power-on
(`refresh_stage = 0`, `PORTA = 3`) in which the colour planes are held at `P` over the
frame number `n`, for `k` in `{0,1,2}`: after the tick entering red stage `3k+1+m` the
ports are `PORTD = 0xFD | (bit<<1)`, `PORTA = 3` (`m = 0`), `PORTD = 0x0F`,
`PORTA = 0xFE | bit` (`m = 1`), `PORTA = 3`, `PORTD = 0xF7 | (bit<<3)` (`m = 2`), where
`bit` is bit `2-m` of `reds[k]`; after the tick entering green stage `10+3k+m` they are
`PORTD = 0xFE | bit`, `PORTA = 3` (`m = 0`), `PORTD = 0x0F`, `PORTA = 0xFD | (bit<<1)`
(`m = 1`), `PORTA = 3`, `PORTD = 0xFB | (bit<<2)` (`m = 2`), with `bit` bit `2-m` of
`greens[k]`.  In each of the six forms the two values of the bit give different port
bytes. -/
theorem C17_stage_led_bijection (st0 : Dev) (planes : Nat → Rows × Rows) (inp : Nat → Nat)
    (n : Nat) (P : Rows × Rows) (h0 : st0.refresh_stage = 0) (hA : st0.PORTA = 3)
    (hP : ∀ j, j < 18 → planes (18 * n + j) = P) (k : Nat) (hk : k < 3) :
    ((runPlanes st0 planes inp (18 * n + (3 * k + 1))).refresh_stage = 3 * k + 1 ∧
      (runPlanes st0 planes inp (18 * n + (3 * k + 1))).PORTD =
        0xfd ||| (bitAt (P.1.get k) 2 <<< 1) ∧
      (runPlanes st0 planes inp (18 * n + (3 * k + 1))).PORTA = 3) ∧
    ((runPlanes st0 planes inp (18 * n + (3 * k + 2))).refresh_stage = 3 * k + 2 ∧
      (runPlanes st0 planes inp (18 * n + (3 * k + 2))).PORTD = 0x0f ∧
      (runPlanes st0 planes inp (18 * n + (3 * k + 2))).PORTA =
        0xfe ||| bitAt (P.1.get k) 1) ∧
    ((runPlanes st0 planes inp (18 * n + (3 * k + 3))).refresh_stage = 3 * k + 3 ∧
      (runPlanes st0 planes inp (18 * n + (3 * k + 3))).PORTA = 3 ∧
      (runPlanes st0 planes inp (18 * n + (3 * k + 3))).PORTD =
        0xf7 ||| (bitAt (P.1.get k) 0 <<< 3)) ∧
    ((runPlanes st0 planes inp (18 * n + (3 * k + 10))).refresh_stage = 3 * k + 10 ∧
      (runPlanes st0 planes inp (18 * n + (3 * k + 10))).PORTD =
        0xfe ||| bitAt (P.2.get k) 2 ∧
      (runPlanes st0 planes inp (18 * n + (3 * k + 10))).PORTA = 3) ∧
    ((runPlanes st0 planes inp (18 * n + (3 * k + 11))).refresh_stage = 3 * k + 11 ∧
      (runPlanes st0 planes inp (18 * n + (3 * k + 11))).PORTD = 0x0f ∧
      (runPlanes st0 planes inp (18 * n + (3 * k + 11))).PORTA =
        0xfd ||| (bitAt (P.2.get k) 1 <<< 1)) ∧
    ((runPlanes st0 planes inp (18 * n + (3 * k + 12))).refresh_stage = 3 * k + 12 ∧
      (runPlanes st0 planes inp (18 * n + (3 * k + 12))).PORTA = 3 ∧
      (runPlanes st0 planes inp (18 * n + (3 * k + 12))).PORTD =
        0xfb ||| (bitAt (P.2.get k) 0 <<< 2)) ∧
    (∀ b, b < 2 → ∀ c, c < 2 → b ≠ c →
      0xfd ||| (b <<< 1) ≠ 0xfd ||| (c <<< 1) ∧ 0xfe ||| b ≠ 0xfe ||| c ∧
      0xf7 ||| (b <<< 3) ≠ 0xf7 ||| (c <<< 3) ∧ 0xfb ||| (b <<< 2) ≠ 0xfb ||| (c <<< 2)) := by
  have hX := frame_start st0 planes inp h0 hA n
  have hrun : ∀ j, j ≤ 18 → runPlanes st0 planes inp (18 * n + j) =
      runPlanes (runPlanes st0 planes inp (18 * n)) (fun _ => P)
        (fun i => inp (18 * n + i)) j := by
    intro j hj
    rw [runPlanes_add]
    exact runPlanes_congr _ _ _ _ j (fun i hi => hP i (by omega))
  have hF := frame_ports (runPlanes st0 planes inp (18 * n)) P (fun i => inp (18 * n + i))
    hX.1 hX.2 k hk
  rw [hrun _ (by omega), hrun _ (by omega), hrun _ (by omega), hrun _ (by omega),
    hrun _ (by omega), hrun _ (by omega)]
  obtain ⟨f1, f2, f3, f4, f5, f6⟩ := hF
  exact ⟨f1, f2, f3, f4, f5, f6, by decide⟩

theorem C17_stage_led_bijection_witness :
    (powerOn.refresh_stage = 0 ∧ powerOn.PORTA = 3 ∧
      (∀ j, j < 18 → planesA (18 * 2 + j) = (⟨6, 5, 3⟩, ⟨7, 7, 7⟩)) ∧ 1 < 3) ∧
    ((runPlanes powerOn planesA pins (18 * 2 + (3 * 1 + 2))).refresh_stage = 3 * 1 + 2 ∧
      (runPlanes powerOn planesA pins (18 * 2 + (3 * 1 + 2))).PORTD = 0x0f ∧
      (runPlanes powerOn planesA pins (18 * 2 + (3 * 1 + 2))).PORTA =
        0xfe ||| bitAt (Rows.get ⟨6, 5, 3⟩ 1) 1) :=
  ⟨⟨rfl, rfl, fun _ _ => rfl, by decide⟩,
   (C17_stage_led_bijection powerOn planesA pins 2 (⟨6, 5, 3⟩, ⟨7, 7, 7⟩) rfl rfl
      (fun _ _ => rfl) 1 (by decide)).2.1⟩

/-! ## The die -/

/-- C19: for every table index `k` in `[0,6)` (and `rand() % 6` is always such an
index), the red bitmap written by `fill_frame(reds, v | 0x40, v >> 6)` with
`v = dies[k]` has exactly `k + 1` lit LEDs, i.e. `k + 1` zero bits among the three low
bits of the three rows, and the middle LED of row 2 is not lit (bit 1 of `reds[2]` is
1). -/
theorem C19_die_pips :
    (∀ k, k < 6 → litCount (die_frame k) = k + 1 ∧ bitAt (die_frame k).r2 1 = 1) ∧
    (∀ seed, die_index seed < 6) := by
  refine ⟨by decide, fun seed => Nat.mod_lt _ (by decide)⟩

/-! ## The period of the generator -/

theorem nextSeed_eq (s : Nat) : nextSeed s = (5 * s + 12345) % 65536 :=
  rand_seed s

theorem nextSeed_lt (s : Nat) : nextSeed s < 65536 := by
  rw [nextSeed_eq]
  exact Nat.mod_lt _ (by decide)

theorem nextSeed_iterate_lt (s : Nat) (hs : s < 65536) (n : Nat) :
    nextSeed^[n] s < 65536 := by
  cases n with
  | zero => exact hs
  | succ n =>
    rw [Function.iterate_succ_apply']
    exact nextSeed_lt _

/-- With `u(s) = 4*s + 12345`, one update multiplies `u` by 5 modulo `2^18`. -/
theorem nextSeed_iterate_mod (n s : Nat) :
    (4 * nextSeed^[n] s + 12345) % 262144 = (5 ^ n * (4 * s + 12345)) % 262144 := by
  induction n with
  | zero => simp
  | succ n ih =>
    rw [Function.iterate_succ_apply', nextSeed_eq]
    have h1 : (4 * ((5 * nextSeed^[n] s + 12345) % 65536) + 12345) % 262144 =
        (5 * ((4 * nextSeed^[n] s + 12345) % 262144)) % 262144 := by omega
    rw [h1, ih, pow_succ, Nat.mul_assoc, Nat.mul_comm (5 ^ n) (5 * _), Nat.mul_assoc,
      Nat.mul_comm (4 * s + 12345) (5 ^ n)]
    omega

theorem pow_five_full : 5 ^ 65536 % 262144 = 1 := by norm_num

theorem pow_five_half : 5 ^ 32768 % 262144 = 131073 := by norm_num

/-- After 65536 updates every 16-bit seed is back. -/
theorem nextSeed_full (s : Nat) (hs : s < 65536) : nextSeed^[65536] s = s := by
  have h := nextSeed_iterate_mod 65536 s
  rw [Nat.mul_mod, pow_five_full] at h
  have hlt := nextSeed_iterate_lt s hs 65536
  omega

/-- After 32768 updates no 16-bit seed is back. -/
theorem nextSeed_half (s : Nat) : nextSeed^[32768] s ≠ s := by
  intro he
  have h := nextSeed_iterate_mod 32768 s
  rw [Nat.mul_mod, pow_five_half, he] at h
  omega

/-- The first return of a 16-bit seed is after exactly 65536 updates. -/
theorem nextSeed_minimalPeriod (s : Nat) (hs : s < 65536) :
    Function.minimalPeriod nextSeed s = 65536 := by
  have hd : Function.minimalPeriod nextSeed s ∣ 2 ^ 16 :=
    Function.IsPeriodicPt.minimalPeriod_dvd (nextSeed_full s hs)
  obtain ⟨m, hm, he⟩ := (Nat.dvd_prime_pow Nat.prime_two).1 hd
  rcases Nat.lt_or_ge m 16 with hlt | hge
  · exfalso
    have hd2 : Function.minimalPeriod nextSeed s ∣ 32768 := by
      rw [he]
      exact pow_dvd_pow 2 (show m ≤ 15 by omega)
    exact nextSeed_half s (Function.isPeriodicPt_iff_minimalPeriod_dvd.2 hd2)
  · have : m = 16 := by omega
    rw [he, this]
    rfl

theorem nextSeed_return_iff (s : Nat) (hs : s < 65536) (n : Nat) :
    nextSeed^[n] s = s ↔ 65536 ∣ n := by
  have h := @Function.isPeriodicPt_iff_minimalPeriod_dvd _ nextSeed s n
  rw [nextSeed_minimalPeriod s hs] at h
  exact h

theorem nextSeed_inj (s t : Nat) (hs : s < 65536) (ht : t < 65536)
    (h : nextSeed s = nextSeed t) : s = t := by
  rw [nextSeed_eq, nextSeed_eq] at h
  omega

/-- The 65536 first iterates of a 16-bit seed are pairwise different. -/
theorem nextSeed_orbit_inj (s : Nat) (hs : s < 65536) (n m : Nat) (hn : n < 65536)
    (hm : m < 65536) (h : nextSeed^[n] s = nextSeed^[m] s) : n = m := by
  have key : ∀ a b, a ≤ b → b < 65536 → nextSeed^[a] s = nextSeed^[b] s → a = b := by
    intro a b hab hb he
    have e : b = (b - a) + a := by omega
    rw [e, Function.iterate_add_apply] at he
    have hd := (nextSeed_return_iff _ (nextSeed_iterate_lt s hs a) (b - a)).1 he.symm
    have : b - a = 0 := Nat.eq_zero_of_dvd_of_lt hd (by omega)
    omega
  rcases Nat.le_total n m with hle | hle
  · exact key n m hle hm h
  · exact (key m n hle hn h.symm).symm

/-- Every 16-bit value is reached from every 16-bit seed: the orbit is one cycle. -/
theorem nextSeed_reaches (s t : Nat) (hs : s < 65536) (ht : t < 65536) :
    ∃ n, n < 65536 ∧ nextSeed^[n] s = t := by
  let φ : Fin 65536 → Fin 65536 := fun n => ⟨nextSeed^[n.1] s, nextSeed_iterate_lt s hs n.1⟩
  have hinj : Function.Injective φ := by
    intro a b hab
    apply Fin.ext
    exact nextSeed_orbit_inj s hs a.1 b.1 a.2 b.2 (congrArg Fin.val hab)
  obtain ⟨n, hn⟩ := (Finite.injective_iff_surjective.1 hinj) ⟨t, ht⟩
  exact ⟨n.1, n.2, congrArg Fin.val hn⟩

/-- C20: the seed update `s -> (5*s + 12345) mod 65536` performed by `rand()` maps 16-bit
values to 16-bit values, never maps two distinct seeds to the same next seed, and is a
single cycle: from every seed the iterate returns to the seed exactly at the multiples
of 65536 (so the first return is after exactly 65536 calls), and every 16-bit value is
reached from every seed within 65535 calls. -/
theorem C20_rand_full_period :
    (∀ s, nextSeed s = (5 * s + 12345) % 65536 ∧ nextSeed s < 65536) ∧
    (∀ s t, s < 65536 → t < 65536 → nextSeed s = nextSeed t → s = t) ∧
    (∀ s, s < 65536 → ∀ n, (nextSeed^[n] s = s ↔ 65536 ∣ n)) ∧
    (∀ s, s < 65536 → nextSeed^[65536] s = s ∧
      ∀ n, 0 < n → n < 65536 → nextSeed^[n] s ≠ s) ∧
    (∀ s t, s < 65536 → t < 65536 → ∃ n, n < 65536 ∧ nextSeed^[n] s = t) := by
  refine ⟨fun s => ⟨nextSeed_eq s, nextSeed_lt s⟩, nextSeed_inj, nextSeed_return_iff,
    ?_, nextSeed_reaches⟩
  intro s hs
  refine ⟨nextSeed_full s hs, ?_⟩
  intro n h0 hn he
  have hd := (nextSeed_return_iff s hs n).1 he
  have := Nat.le_of_dvd h0 hd
  omega

/-! ## Message-buffer bounds -/

theorem editor_store_size (m : Msg) (R G : Rows) (i : Nat) :
    (editor_store m R G i).message_size = m.message_size := rfl

theorem editor_event_inv (e : Ed) (ev : Nat × Rows) (h : edInv e) :
    edInv (editor_event e ev) := by
  obtain ⟨hf, hl, hs, hm⟩ := h
  unfold MESSAGE_MAX at hf hl hs hm
  unfold editor_event edInv MESSAGE_MAX
  by_cases hr : e.running = true
  · have hf1 := hf hr
    simp only [hr, if_true]
    split_ifs with h1 h2 h3 h4 h5
    · refine ⟨fun hc => by simp at hc, hl, hs, ?_⟩
      simp only
      omega
    · refine ⟨fun _ => ?_, ?_, hs, ?_⟩
      · simp only
        omega
      · intro i hi
        simp only [List.mem_cons] at hi
        rcases hi with rfl | hi
        · omega
        · exact hl i hi
      · simp only
        omega
    · refine ⟨fun _ => ?_, ?_, hs, hm⟩
      · simp only
        omega
      · intro i hi
        simp only [List.mem_cons] at hi
        rcases hi with rfl | hi
        · omega
        · exact hl i hi
    · refine ⟨fun _ => hf1, ?_, hs, hm⟩
      intro i hi
      simp only [List.mem_cons] at hi
      rcases hi with rfl | hi
      · exact hf1
      · exact hl i hi
    · refine ⟨fun hc => by simp at hc, hl, hs, ?_⟩
      simp only
      omega
    · refine ⟨fun _ => hf1, hl, ?_, ?_⟩
      · intro i hi
        simp only [List.mem_cons] at hi
        rcases hi with rfl | hi
        · exact hf1
        · exact hs i hi
      · simp only [editor_store_size]
        exact hm
  · simp only [hr]
    exact ⟨hf, hl, hs, hm⟩

theorem editor_run_inv (evs : List (Nat × Rows)) :
    ∀ e : Ed, edInv e → edInv (editor_run e evs) := by
  induction evs with
  | nil => intro e h; exact h
  | cons ev rest ih =>
    intro e h
    exact ih _ (editor_event_inv e ev h)

theorem player_loop_lt (message_size : Nat) (stop : Nat → Bool) :
    ∀ (fuel i : Nat), ∀ x ∈ player_loop fuel i message_size stop, x < message_size := by
  intro fuel
  induction fuel with
  | zero => intro i x hx; simp [player_loop] at hx
  | succ fuel ih =>
    intro i x hx
    rw [player_loop] at hx
    split_ifs at hx with h1 h2
    · simp only [List.mem_singleton] at hx
      omega
    · simp only [List.mem_cons] at hx
      rcases hx with rfl | hx
      · exact h1
      · exact ih _ x hx
    · simp at hx

/-- C18: for every sequence of `read_buttons` results fed to the editor branch, entered
with `message_size ≤ 20`: every argument of `load_frame` and every index `frame` used
on `message_reds` / `message_greens` is below 20, the index `frame >> 2` used on
`message_tails` is below 5, `message_size ≤ 20` holds afterwards, and a player loop
run on the resulting store calls `load_frame(i)` only with `i < 20`. -/
theorem C18_message_bounds (dev : Dev) (msg : Msg) (evs : List (Nat × Rows))
    (hsize : msg.message_size ≤ MESSAGE_MAX) :
    (∀ i ∈ (editor_run (editor_enter dev msg) evs).loads, i < 20 ∧ i >>> 2 < 5) ∧
    (∀ i ∈ (editor_run (editor_enter dev msg) evs).stores, i < 20 ∧ i >>> 2 < 5) ∧
    (editor_run (editor_enter dev msg) evs).msg.message_size ≤ 20 ∧
    ((editor_run (editor_enter dev msg) evs).running = true →
      (editor_run (editor_enter dev msg) evs).frame < 20) ∧
    (∀ (fuel : Nat) (stop : Nat → Bool),
      ∀ i ∈ player_loop fuel 0 (editor_run (editor_enter dev msg) evs).msg.message_size stop,
        i < 20 ∧ i >>> 2 < 5) := by
  have h0 : edInv (editor_enter dev msg) := by
    refine ⟨fun _ => (by decide : 0 < MESSAGE_MAX), ?_, ?_, hsize⟩
    · intro i hi
      simp only [editor_enter, List.mem_singleton] at hi
      rw [hi]
      decide
    · intro i hi
      simp [editor_enter] at hi
  obtain ⟨hf, hl, hs, hm⟩ := editor_run_inv evs _ h0
  unfold MESSAGE_MAX at hf hl hs hm
  have hsh : ∀ i : Nat, i < 20 → i >>> 2 < 5 := by
    intro i hi
    rw [Nat.shiftRight_eq_div_pow]
    have : (2 : Nat) ^ 2 = 4 := rfl
    rw [this]
    omega
  refine ⟨fun i hi => ⟨hl i hi, hsh i (hl i hi)⟩, fun i hi => ⟨hs i hi, hsh i (hs i hi)⟩,
    hm, hf, ?_⟩
  intro fuel stop i hi
  have := player_loop_lt _ stop fuel 0 i hi
  exact ⟨by omega, hsh i (by omega)⟩

theorem C18_message_bounds_witness :
    someMsg.message_size ≤ MESSAGE_MAX ∧
    (∀ i ∈ (editor_run (editor_enter midFrame someMsg) someSession).loads,
      i < 20 ∧ i >>> 2 < 5) ∧
    (∀ i ∈ (editor_run (editor_enter midFrame someMsg) someSession).stores,
      i < 20 ∧ i >>> 2 < 5) ∧
    (editor_run (editor_enter midFrame someMsg) someSession).msg.message_size ≤ 20 :=
  ⟨by decide, (C18_message_bounds midFrame someMsg someSession (by decide)).1,
   (C18_message_bounds midFrame someMsg someSession (by decide)).2.1,
   (C18_message_bounds midFrame someMsg someSession (by decide)).2.2.1⟩

end AlienDie
